import Mathlib

/-!
Verification of the OWL predictor (`predictor.py`) against its
natural-language specification.

The Python source is shallowly embedded: the mutable predictor state becomes
an explicit `Standings` (resp. `PlayerModel`) value, Python `defaultdict(int)`
counters become finite association lists with a get-or-default accessor,
floats become exact rationals (or reals where `sqrt`/`log` appear), and
fallible code (`raise`, `NameError`, `IndexError`, `KeyError`) returns
`Option`.
-/

namespace OwlSr

/-! ### Association-list maps

Python dicts (and `defaultdict`s) are modelled as association lists kept in
insertion order.  `aget d m k` is `m[k]` with default `d`; `aset m k v` is
`m[k] = v` (updating in place, appending new keys at the end, exactly like a
Python dict). -/

variable {κ ν : Type} [DecidableEq κ]

/-- Dictionary lookup with a default value. -/
def aget (d : ν) : List (κ × ν) → κ → ν
  | [], _ => d
  | p :: m, k => if p.1 = k then p.2 else aget d m k

/-- Dictionary assignment: update the existing entry or append a new one. -/
def aset : List (κ × ν) → κ → ν → List (κ × ν)
  | [], k, v => [(k, v)]
  | p :: m, k, v => if p.1 = k then (k, v) :: m else p :: aset m k v

/-- `defaultdict` increment: `m[k] += v` (with default `0`). -/
def addAt [AddCommMonoid ν] (m : List (κ × ν)) (k : κ) (v : ν) : List (κ × ν) :=
  aset m k (aget 0 m k + v)

/-- `sum(m.values())`. -/
def mtotal [AddCommMonoid ν] (m : List (κ × ν)) : ν :=
  (m.map Prod.snd).sum

theorem aget_aset_self (m : List (κ × ν)) (d : ν) (k : κ) (v : ν) :
    aget d (aset m k v) k = v := by
  induction m with
  | nil => simp [aget, aset]
  | cons p m ih =>
    by_cases h : p.1 = k
    · simp [aset, aget, h]
    · simp [aset, aget, h, ih]

theorem aget_aset_ne (m : List (κ × ν)) (d : ν) {k k' : κ} (v : ν) (h : k ≠ k') :
    aget d (aset m k v) k' = aget d m k' := by
  induction m with
  | nil => simp [aget, aset, h]
  | cons p m ih =>
    by_cases hp : p.1 = k
    · subst hp
      simp [aset, aget, h]
    · simp only [aset, if_neg hp]
      by_cases hp' : p.1 = k'
      · simp [aget, hp']
      · simp [aget, hp', ih]

theorem aget_addAt_self [AddCommMonoid ν] (m : List (κ × ν)) (k : κ) (v : ν) :
    aget 0 (addAt m k v) k = aget 0 m k + v :=
  aget_aset_self m 0 k _

theorem aget_addAt_ne [AddCommMonoid ν] (m : List (κ × ν)) {k k' : κ} (v : ν) (h : k ≠ k') :
    aget 0 (addAt m k v) k' = aget 0 m k' :=
  aget_aset_ne m 0 _ h

theorem mtotal_addAt [AddCommMonoid ν] (m : List (κ × ν)) (k : κ) (v : ν) :
    mtotal (addAt m k v) = mtotal m + v := by
  induction m with
  | nil => simp [addAt, aset, mtotal, aget]
  | cons p m ih =>
    by_cases h : p.1 = k
    · simp only [addAt, aset, aget, if_pos h, mtotal, List.map_cons, List.sum_cons]
      abel
    · simp only [addAt, aset, aget, if_neg h, mtotal, List.map_cons, List.sum_cons] at ih ⊢
      rw [ih]
      abel

/-! ### Data model

`Game` mirrors the fields of `game.Game` used by `predictor.py`: one game is a
single map of a series, `score` is the in-map score pair, and all games of one
series share a `matchId`. -/

structure Game where
  teams : String × String
  score : Int × Int
  stage : String
  matchId : Int
  matchFormat : String
  drawable : Bool
  rosters : List String × List String
deriving DecidableEq

/-- The mutable standings state of `Predictor.__init__`.  Counter dicts are
association lists over team names (or ordered team pairs); `stage`, `baseStage`
and `matchId` start as `none` (Python `None`). -/
structure Standings where
  mapDiffs : List (String × Int)
  headToHeadMapDiffs : List ((String × String) × Int)
  stage : Option String
  baseStage : Option String
  stageWins : List (String × Int)
  stageLosses : List (String × Int)
  stageMapDiffs : List (String × Int)
  stageHeadToHeadMapDiffs : List ((String × String) × Int)
  stageTitleWins : List (String × Int)
  stageTitleLosses : List (String × Int)
  matchId : Option Int
  score : List (String × Int)
  scores : List (Int × List (String × Int))
  matchHistory : List ((Option String × String) × List Int)
deriving DecidableEq

/-- Fresh standings, as built by `Predictor.__init__`.  (`self.score` is
`None` initially in Python; it is only ever read after `_update_match_ids`
has set it, so the empty dict is a faithful stand-in.) -/
def initStandings : Standings where
  mapDiffs := []
  headToHeadMapDiffs := []
  stage := none
  baseStage := none
  stageWins := []
  stageLosses := []
  stageMapDiffs := []
  stageHeadToHeadMapDiffs := []
  stageTitleWins := []
  stageTitleLosses := []
  matchId := none
  score := []
  scores := []
  matchHistory := []

/-- `Predictor.stage_finished`: the stage's title matches are considered
complete exactly when the recorded stage title losses sum to 2. -/
def stageFinished (s : Standings) : Bool :=
  mtotal s.stageTitleLosses == 2

/-- `Predictor._update_stage`.  A differing stage id that textually extends
the current one (`stage.startswith(self.stage)`, here a character-list
prefix test) enters the title sub-stage without resetting counters; any
other differing id starts a new stage and clears every stage-scoped
counter. -/
def updateStage (s : Standings) (stage : String) : Standings :=
  if some stage = s.stage then s
  else
    match s.stage with
    | some cur =>
      if cur.data.isPrefixOf stage.data then
        { s with baseStage := some cur, stage := some stage }
      else
        { s with baseStage := some stage, stage := some stage,
                 stageWins := [], stageLosses := [], stageMapDiffs := [],
                 stageHeadToHeadMapDiffs := [], stageTitleWins := [],
                 stageTitleLosses := [] }
    | none =>
      { s with baseStage := some stage, stage := some stage,
               stageWins := [], stageLosses := [], stageMapDiffs := [],
               stageHeadToHeadMapDiffs := [], stageTitleWins := [],
               stageTitleLosses := [] }

/-- `Predictor._update_match_ids`: on a new match id, start a fresh running
score for the two teams and append the match id to both teams' per-stage
match history. -/
def updateMatchIds (s : Standings) (matchId : Int) (teams : String × String) : Standings :=
  if some matchId = s.matchId then s
  else
    let sc := aset (aset ([] : List (String × Int)) teams.1 0) teams.2 0
    let mh := aset s.matchHistory (s.stage, teams.1)
      (aget [] s.matchHistory (s.stage, teams.1) ++ [matchId])
    let mh := aset mh (s.stage, teams.2)
      (aget [] mh (s.stage, teams.2) ++ [matchId])
    { s with matchId := some matchId, score := sc,
             scores := aset s.scores matchId sc, matchHistory := mh }

/-- `Predictor._update_standings`.  After the stage and match transitions, a
decisive game moves the global (and, for regular games, stage) map diffs by
one, attributes or retracts a match-level win/loss depending on the
pre-increment running score, and finally increments the winner's running
score.  (Python aliases `self.scores[match_id]` to `self.score`; the model
writes both explicitly.) -/
def updateStandings (s0 : Standings) (g : Game) : Standings :=
  let s := updateMatchIds (updateStage s0 g.stage) g.matchId g.teams
  if g.score.1 = g.score.2 then s
  else
    let wl := if g.score.2 < g.score.1 then g.teams else (g.teams.2, g.teams.1)
    let winner := wl.1
    let loser := wl.2
    let isTitle : Bool := g.matchFormat == "title"
    let s := { s with
      mapDiffs := addAt (addAt s.mapDiffs winner 1) loser (-1)
      headToHeadMapDiffs :=
        addAt (addAt s.headToHeadMapDiffs (winner, loser) 1) (loser, winner) (-1) }
    let s :=
      if isTitle then s
      else
        { s with
          stageMapDiffs := addAt (addAt s.stageMapDiffs winner 1) loser (-1)
          stageHeadToHeadMapDiffs :=
            addAt (addAt s.stageHeadToHeadMapDiffs (winner, loser) 1) (loser, winner) (-1) }
    let s :=
      if aget 0 s.score winner = aget 0 s.score loser then
        if isTitle then
          { s with stageTitleWins := addAt s.stageTitleWins winner 1,
                   stageTitleLosses := addAt s.stageTitleLosses loser 1 }
        else
          { s with stageWins := addAt s.stageWins winner 1,
                   stageLosses := addAt s.stageLosses loser 1 }
      else if aget 0 s.score winner = aget 0 s.score loser - 1 then
        if isTitle then
          { s with stageTitleWins := addAt s.stageTitleWins loser (-1),
                   stageTitleLosses := addAt s.stageTitleLosses winner (-1) }
        else
          { s with stageWins := addAt s.stageWins loser (-1),
                   stageLosses := addAt s.stageLosses winner (-1) }
      else s
    let newScore := addAt s.score winner 1
    { s with score := newScore, scores := aset s.scores g.matchId newScore }

/-- `SimplePredictor.predict`: map-differential heuristic returning
`(p_win, p_draw)`; `p_draw` is always 0.  (The Python signature also takes
`rosters` and `drawable`, both unused by the body and omitted here.) -/
def simplePredict (alpha beta : ℚ) (s : Standings) (teams : String × String) : ℚ × ℚ :=
  let diff1 := aget 0 s.mapDiffs teams.1
  let diff2 := aget 0 s.mapDiffs teams.2
  if diff2 < diff1 then (1/2 + alpha, 0)
  else if diff1 = diff2 then
    let record := aget 0 s.headToHeadMapDiffs teams
    if 0 < record then (1/2 + beta, 0)
    else if record = 0 then (1/2, 0)
    else (1/2 - beta, 0)
  else (1/2 - alpha, 0)



/-! ### Helper lemmas about the standings update -/

theorem updateStage_self (s : Standings) (st : String) (h : some st = s.stage) :
    updateStage s st = s := by
  simp [updateStage, h]

theorem updateMatchIds_self (s : Standings) (m : Int) (teams : String × String)
    (h : some m = s.matchId) : updateMatchIds s m teams = s := by
  simp [updateMatchIds, h]

/-- Concrete names used by witnesses and counterexamples. -/
def teamA : String := "A"

def teamB : String := "B"

def stage1 : String := "s1"

def fmtRegular : String := "regular"



/-! ### Claim C4: the map-differential heuristic -/

/-- Claim C4: with `alpha = 0.2`, `SimplePredictor.predict` returns `p_win`
exactly `0.7` whenever team1's global map diff strictly exceeds team2's
(independently of the magnitude), returns `p_win = 0.5` when the diffs are
equal and the pair's head-to-head diff is 0, and always returns `p_draw = 0`. -/
theorem c4_simple_heuristic (beta : ℚ) (s : Standings) (t1 t2 : String) :
    (aget 0 s.mapDiffs t2 < aget 0 s.mapDiffs t1 →
      simplePredict (1/5) beta s (t1, t2) = (7/10, 0)) ∧
    (aget 0 s.mapDiffs t1 = aget 0 s.mapDiffs t2 →
      aget 0 s.headToHeadMapDiffs (t1, t2) = 0 →
      simplePredict (1/5) beta s (t1, t2) = (1/2, 0)) ∧
    (simplePredict (1/5) beta s (t1, t2)).2 = 0 := by
  refine ⟨?_, ?_, ?_⟩
  · intro h
    rw [simplePredict, if_pos h]
    norm_num
  · intro h h2
    have hlt : ¬ aget 0 s.mapDiffs t2 < aget 0 s.mapDiffs t1 := by omega
    rw [simplePredict, if_neg hlt, if_pos h]
    simp only [h2]
    norm_num
  · rw [simplePredict]
    simp only []
    split_ifs <;> rfl

/-- Witness for C4 at a concrete standings state. -/
theorem c4_simple_heuristic_witness :
    (aget 0 ({ initStandings with
        mapDiffs := [(teamA, 3), (teamB, -3)] } : Standings).mapDiffs teamB <
      aget 0 ({ initStandings with
        mapDiffs := [(teamA, 3), (teamB, -3)] } : Standings).mapDiffs teamA) ∧
    simplePredict (1/5) 0 { initStandings with mapDiffs := [(teamA, 3), (teamB, -3)] }
      (teamA, teamB) = (7/10, 0) :=
  ⟨by decide,
   (c4_simple_heuristic 0 { initStandings with mapDiffs := [(teamA, 3), (teamB, -3)] }
      teamA teamB).1 (by decide)⟩


/-! ### Claim C5: stage transitions -/

/-- Claim C5: on an incoming stage id that differs from the tracked one and
textually extends it, `_update_stage` switches to the new id as a title
sub-stage and leaves every stage-scoped counter untouched; on a differing id
that does not extend it, all stage-scoped counters are reset; on an equal id,
the state is unchanged. -/
theorem c5_stage_transition (s : Standings) (cur stage : String) :
    (s.stage = some cur → stage ≠ cur → cur.data.isPrefixOf stage.data = true →
      updateStage s stage = { s with baseStage := some cur, stage := some stage }) ∧
    (s.stage = some cur → stage ≠ cur → cur.data.isPrefixOf stage.data = false →
      updateStage s stage =
        { s with baseStage := some stage, stage := some stage,
                 stageWins := [], stageLosses := [], stageMapDiffs := [],
                 stageHeadToHeadMapDiffs := [], stageTitleWins := [],
                 stageTitleLosses := [] }) ∧
    (s.stage = some stage → updateStage s stage = s) := by
  refine ⟨?_, ?_, ?_⟩
  · intro hcur hne hpre
    have hs : ¬ some stage = s.stage := by
      rw [hcur]
      simp [hne]
    rw [updateStage, if_neg hs, hcur]
    simp [hpre]
  · intro hcur hne hpre
    have hs : ¬ some stage = s.stage := by
      rw [hcur]
      simp [hne]
    rw [updateStage, if_neg hs, hcur]
    simp [hpre]
  · intro hcur
    exact updateStage_self s stage hcur.symm

/-- Witness for C5: a title sub-stage entry, a genuine stage change, and an
unchanged stage, each at concrete states. -/
theorem c5_stage_transition_witness :
    (updateStage { initStandings with stage := some stage1, stageWins := [(teamA, 2)] }
        (stage1 ++ "-title") =
      { initStandings with stage := some (stage1 ++ "-title"), baseStage := some stage1,
                           stageWins := [(teamA, 2)] }) ∧
    (updateStage { initStandings with stage := some stage1, stageWins := [(teamA, 2)] }
        ("s2") =
      { initStandings with stage := some ("s2"), baseStage := some ("s2") }) ∧
    (updateStage { initStandings with stage := some stage1, stageWins := [(teamA, 2)] }
        stage1 =
      { initStandings with stage := some stage1, stageWins := [(teamA, 2)] }) := by
  refine ⟨?_, ?_, ?_⟩
  · exact (c5_stage_transition
      { initStandings with stage := some stage1, stageWins := [(teamA, 2)] }
      stage1 (stage1 ++ "-title")).1 rfl (by decide) (by decide)
  · exact (c5_stage_transition
      { initStandings with stage := some stage1, stageWins := [(teamA, 2)] }
      stage1 ("s2")).2.1 rfl (by decide) (by decide)
  · exact (c5_stage_transition
      { initStandings with stage := some stage1, stageWins := [(teamA, 2)] }
      stage1 stage1).2.2 rfl


/-- Field-level description of one decisive non-title game processed by
`_update_standings` when neither the stage nor the match id changes. -/
theorem decisiveStep (s1 : Standings) (g : Game) (W L : String)
    (hw : (if g.score.2 < g.score.1 then g.teams else (g.teams.2, g.teams.1)) = (W, L))
    (hfmt : g.matchFormat ≠ "title")
    (hdec : g.score.1 ≠ g.score.2)
    (hstage : some g.stage = s1.stage) (hmid : some g.matchId = s1.matchId) :
    (updateStandings s1 g).stage = s1.stage ∧
    (updateStandings s1 g).matchId = s1.matchId ∧
    (updateStandings s1 g).mapDiffs = addAt (addAt s1.mapDiffs W 1) L (-1) ∧
    (updateStandings s1 g).score = addAt s1.score W 1 ∧
    (updateStandings s1 g).stageWins =
      (if aget 0 s1.score W = aget 0 s1.score L then addAt s1.stageWins W 1
       else if aget 0 s1.score W = aget 0 s1.score L - 1 then addAt s1.stageWins L (-1)
       else s1.stageWins) ∧
    (updateStandings s1 g).stageTitleWins = s1.stageTitleWins ∧
    (updateStandings s1 g).stageTitleLosses = s1.stageTitleLosses := by
  have htitle : (g.matchFormat == "title") = false := by
    simpa using hfmt
  rw [updateStandings, updateStage_self _ _ hstage, updateMatchIds_self _ _ _ hmid]
  simp only [if_neg hdec, hw, htitle, Bool.false_eq_true]
  split_ifs <;> simp_all


theorem updateStage_stage (s : Standings) (st : String) :
    (updateStage s st).stage = some st := by
  rw [updateStage]
  split_ifs with h
  · exact h.symm
  · cases hs : s.stage <;> simp [hs]
    split_ifs <;> rfl

theorem updateMatchIds_stage (s : Standings) (m : Int) (t : String × String) :
    (updateMatchIds s m t).stage = s.stage := by
  rw [updateMatchIds]
  split_ifs <;> rfl

theorem updateMatchIds_matchId (s : Standings) (m : Int) (t : String × String) :
    (updateMatchIds s m t).matchId = some m := by
  rw [updateMatchIds]
  split_ifs with h
  · exact h.symm
  · rfl

/-- `_update_standings` only depends on the state through the stage/match
transition, so it may be replayed from the transitioned state. -/
theorem updateStandings_eq_mid (s : Standings) (g : Game) :
    updateStandings s g =
      updateStandings (updateMatchIds (updateStage s g.stage) g.matchId g.teams) g := by
  have h1 : updateStage (updateMatchIds (updateStage s g.stage) g.matchId g.teams) g.stage =
      updateMatchIds (updateStage s g.stage) g.matchId g.teams :=
    updateStage_self _ _ (by rw [updateMatchIds_stage, updateStage_stage])
  conv_lhs => rw [updateStandings]
  conv_rhs => rw [updateStandings]
  rw [h1, updateMatchIds_self _ _ _ (updateMatchIds_matchId _ _ _).symm]

theorem aget_fresh_score (A B X : String) :
    aget (0 : Int) (aset (aset [] A 0) B 0) X = 0 := by
  simp only [aset]
  split_ifs <;> simp only [aget] <;> split_ifs <;> rfl

/-- Invariant maintained while replaying the maps of one non-title match:
the running score is `(a, b)`, and the only match-level win attributed so
far is one provisional win for whichever team currently leads. -/
def MatchInv (A B st : String) (m : Int) (wA wB a b : Int) (s : Standings) : Prop :=
  s.stage = some st ∧ s.matchId = some m ∧
  aget 0 s.score A = a ∧ aget 0 s.score B = b ∧
  aget 0 s.stageWins A = wA + (if b < a then 1 else 0) ∧
  aget 0 s.stageWins B = wB + (if a < b then 1 else 0)

theorem matchInvStep {A B st : String} {m : Int} {wA wB a b : Int} (hAB : A ≠ B)
    {s : Standings} {g : Game}
    (hg : g.teams = (A, B)) (hgs : g.stage = st) (hgm : g.matchId = m)
    (hgf : g.matchFormat = "regular") (hdec : g.score.1 ≠ g.score.2)
    (hInv : MatchInv A B st m wA wB a b s) :
    MatchInv A B st m wA wB
      (if g.score.2 < g.score.1 then a + 1 else a)
      (if g.score.2 < g.score.1 then b else b + 1)
      (updateStandings s g) := by
  obtain ⟨h1, h2, h3, h4, h5, h6⟩ := hInv
  have hfmt : g.matchFormat ≠ "title" := by
    rw [hgf]
    decide
  have hstage : some g.stage = s.stage := by rw [hgs, h1]
  have hmid : some g.matchId = s.matchId := by rw [hgm, h2]
  by_cases hw : g.score.2 < g.score.1
  · obtain ⟨f1, f2, f3, f4, f5, _, _⟩ :=
      decisiveStep s g A B (by rw [if_pos hw, hg]) hfmt hdec hstage hmid
    rw [h3, h4] at f5
    simp only [MatchInv, if_pos hw]
    refine ⟨f1.trans h1, f2.trans h2, ?_, ?_, ?_, ?_⟩
    · rw [f4, aget_addAt_self, h3]
    · rw [f4, aget_addAt_ne _ _ hAB, h4]
    · rw [f5]
      by_cases hab : a = b
      · rw [if_pos hab, aget_addAt_self, h5]
        split_ifs <;> omega
      · rw [if_neg hab]
        by_cases hab2 : a = b - 1
        · rw [if_pos hab2, aget_addAt_ne _ _ (Ne.symm hAB), h5]
          split_ifs <;> omega
        · rw [if_neg hab2, h5]
          split_ifs <;> omega
    · rw [f5]
      by_cases hab : a = b
      · rw [if_pos hab, aget_addAt_ne _ _ hAB, h6]
        split_ifs <;> omega
      · rw [if_neg hab]
        by_cases hab2 : a = b - 1
        · rw [if_pos hab2, aget_addAt_self, h6]
          split_ifs <;> omega
        · rw [if_neg hab2, h6]
          split_ifs <;> omega
  · obtain ⟨f1, f2, f3, f4, f5, _, _⟩ :=
      decisiveStep s g B A (by rw [if_neg hw, hg]) hfmt hdec hstage hmid
    rw [h3, h4] at f5
    simp only [MatchInv, if_neg hw]
    refine ⟨f1.trans h1, f2.trans h2, ?_, ?_, ?_, ?_⟩
    · rw [f4, aget_addAt_ne _ _ (Ne.symm hAB), h3]
    · rw [f4, aget_addAt_self, h4]
    · rw [f5]
      by_cases hab : b = a
      · rw [if_pos hab, aget_addAt_ne _ _ (Ne.symm hAB), h5]
        split_ifs <;> omega
      · rw [if_neg hab]
        by_cases hab2 : b = a - 1
        · rw [if_pos hab2, aget_addAt_self, h5]
          split_ifs <;> omega
        · rw [if_neg hab2, h5]
          split_ifs <;> omega
    · rw [f5]
      by_cases hab : b = a
      · rw [if_pos hab, aget_addAt_self, h6]
        split_ifs <;> omega
      · rw [if_neg hab]
        by_cases hab2 : b = a - 1
        · rw [if_pos hab2, aget_addAt_ne _ _ hAB, h6]
          split_ifs <;> omega
        · rw [if_neg hab2, h6]
          split_ifs <;> omega


theorem matchInvRun {A B st : String} {m : Int} {wA wB : Int} (hAB : A ≠ B) :
    ∀ (games : List Game) (s : Standings) (a b : Int),
      MatchInv A B st m wA wB a b s →
      (∀ g ∈ games, g.teams = (A, B) ∧ g.stage = st ∧ g.matchId = m ∧
        g.matchFormat = "regular" ∧ g.score.1 ≠ g.score.2) →
      MatchInv A B st m wA wB
        (a + games.countP (fun g => decide (g.score.2 < g.score.1)))
        (b + games.countP (fun g => decide (g.score.1 < g.score.2)))
        (games.foldl updateStandings s)
  | [], s, a, b, hInv, _ => by
    simpa using hInv
  | g :: gs, s, a, b, hInv, hall => by
    obtain ⟨hg, hgs, hgm, hgf, hdec⟩ := hall g (List.mem_cons_self g gs)
    have hstep := matchInvStep hAB hg hgs hgm hgf hdec hInv
    have hrest := matchInvRun hAB gs (updateStandings s g)
      (if g.score.2 < g.score.1 then a + 1 else a)
      (if g.score.2 < g.score.1 then b else b + 1)
      hstep (fun g' hg' => hall g' (List.mem_cons_of_mem g hg'))
    by_cases hw : g.score.2 < g.score.1
    · have hw2 : ¬ g.score.1 < g.score.2 := by omega
      simp only [if_pos hw] at hrest
      have e1 : (((g :: gs).countP (fun g => decide (g.score.2 < g.score.1)) : Nat) : Int) =
          1 + ((gs.countP (fun g => decide (g.score.2 < g.score.1)) : Nat) : Int) := by
        simp only [List.countP_cons, hw, decide_true_eq_true]
        push_cast
        ring
      have e2 : (((g :: gs).countP (fun g => decide (g.score.1 < g.score.2)) : Nat) : Int) =
          ((gs.countP (fun g => decide (g.score.1 < g.score.2)) : Nat) : Int) := by
        simp [List.countP_cons, hw2]
      rw [List.foldl_cons, e1, e2, ← add_assoc]
      exact hrest
    · have hw2 : g.score.1 < g.score.2 := by omega
      simp only [if_neg hw] at hrest
      have e1 : (((g :: gs).countP (fun g => decide (g.score.2 < g.score.1)) : Nat) : Int) =
          ((gs.countP (fun g => decide (g.score.2 < g.score.1)) : Nat) : Int) := by
        simp [List.countP_cons, hw]
      have e2 : (((g :: gs).countP (fun g => decide (g.score.1 < g.score.2)) : Nat) : Int) =
          1 + ((gs.countP (fun g => decide (g.score.1 < g.score.2)) : Nat) : Int) := by
        simp only [List.countP_cons, hw2, decide_true_eq_true]
        push_cast
        ring
      rw [List.foldl_cons, e1, e2, ← add_assoc]
      exact hrest


theorem updateMatchIds_new_fields (s : Standings) (m : Int) (t : String × String)
    (h : ¬ some m = s.matchId) :
    (updateMatchIds s m t).score = aset (aset [] t.1 0) t.2 0 ∧
    (updateMatchIds s m t).stageWins = s.stageWins := by
  rw [updateMatchIds, if_neg h]
  exact ⟨rfl, rfl⟩

/-! ### Claim C1: the series-retraction invariant -/

/-- Claim C1: replaying a best-of-7 match recorded as 7 decisive map games
under one (new) match id through `_update_standings`, with
`match_format = regular` and no stage change, raises the eventual match
winner's stage win counter by exactly 1 and leaves the loser's unchanged,
whatever the order of the intermediate map wins. -/
theorem c1_match_retraction (s0 : Standings) (A B st : String) (m : Int)
    (games : List Game)
    (hAB : A ≠ B) (hstage : s0.stage = some st) (hmid : s0.matchId ≠ some m)
    (hlen : games.length = 7)
    (hcnt : games.countP (fun g => decide (g.score.2 < g.score.1)) = 4)
    (hall : ∀ g ∈ games, g.teams = (A, B) ∧ g.stage = st ∧ g.matchId = m ∧
      g.matchFormat = "regular" ∧ g.score.1 ≠ g.score.2) :
    aget 0 (games.foldl updateStandings s0).stageWins A = aget 0 s0.stageWins A + 1 ∧
    aget 0 (games.foldl updateStandings s0).stageWins B = aget 0 s0.stageWins B := by
  cases games with
  | nil => simp at hlen
  | cons g1 rest =>
    obtain ⟨hg, hgs, hgm, hgf, hdec⟩ := hall g1 (List.mem_cons_self _ _)
    have hstage1 : updateStage s0 g1.stage = s0 :=
      updateStage_self _ _ (by rw [hgs, hstage])
    have hmne : ¬ some g1.matchId = s0.matchId := by
      rw [hgm]
      exact fun h => hmid h.symm
    have midInv : MatchInv A B st m (aget 0 s0.stageWins A) (aget 0 s0.stageWins B) 0 0
        (updateMatchIds (updateStage s0 g1.stage) g1.matchId g1.teams) := by
      rw [hstage1]
      obtain ⟨hsc, hsw⟩ := updateMatchIds_new_fields s0 g1.matchId g1.teams hmne
      refine ⟨?_, ?_, ?_, ?_, ?_, ?_⟩
      · rw [updateMatchIds_stage, hstage]
      · rw [updateMatchIds_matchId, hgm]
      · rw [hsc, aget_fresh_score]
      · rw [hsc, aget_fresh_score]
      · rw [hsw]
        simp
      · rw [hsw]
        simp
    have hstep := matchInvStep hAB hg hgs hgm hgf hdec midInv
    rw [← updateStandings_eq_mid] at hstep
    have hrun := matchInvRun hAB rest (updateStandings s0 g1) _ _ hstep
      (fun g' h' => hall g' (List.mem_cons_of_mem g1 h'))
    -- Count bookkeeping: the winner takes 4 of the 7 maps, the loser 3.
    have hflip : ∀ g ∈ rest, (decide ¬ (decide (g.score.2 < g.score.1)) = true) =
        decide (g.score.1 < g.score.2) := by
      intro g hG
      have hd := (hall g (List.mem_cons_of_mem g1 hG)).2.2.2.2
      by_cases h : g.score.2 < g.score.1
      · have h2 : ¬ g.score.1 < g.score.2 := by omega
        simp [h, h2]
      · have h2 : g.score.1 < g.score.2 := by omega
        simp [h, h2]
    have hsum : rest.length = rest.countP (fun g => decide (g.score.2 < g.score.1)) +
        rest.countP (fun g => decide (g.score.1 < g.score.2)) := by
      rw [List.length_eq_countP_add_countP (fun g => decide (g.score.2 < g.score.1)) rest]
      congr 1
      exact List.countP_congr (fun g hG => by rw [← hflip g hG])
    rw [List.length_cons] at hlen
    rw [List.countP_cons] at hcnt
    obtain ⟨_, _, _, _, w5, w6⟩ := hrun
    rw [List.foldl_cons]
    by_cases hw1 : g1.score.2 < g1.score.1
    · simp only [if_pos hw1] at w5 w6
      have hca : rest.countP (fun g => decide (g.score.2 < g.score.1)) = 3 := by
        simp [hw1] at hcnt
        omega
      have hcb : rest.countP (fun g => decide (g.score.1 < g.score.2)) = 3 := by omega
      rw [hca] at w5 w6
      rw [hcb] at w5 w6
      norm_num at w5 w6
      exact ⟨w5, w6⟩
    · simp only [if_neg hw1] at w5 w6
      have hca : rest.countP (fun g => decide (g.score.2 < g.score.1)) = 4 := by
        simp [hw1] at hcnt
        omega
      have hcb : rest.countP (fun g => decide (g.score.1 < g.score.2)) = 2 := by omega
      rw [hca] at w5 w6
      rw [hcb] at w5 w6
      norm_num at w5 w6
      exact ⟨w5, w6⟩


/-- One decisive map of the witness match: team A wins the map when `w` is
true, team B otherwise. -/
def mapGame (w : Bool) : Game where
  teams := (teamA, teamB)
  score := if w then (1, 0) else (0, 1)
  stage := stage1
  matchId := 5
  matchFormat := fmtRegular
  drawable := false
  rosters := ([], [])

/-- Witness for C1: a 4–3 series with two lead changes. -/
theorem c1_match_retraction_witness :
    aget 0 (([mapGame true, mapGame false, mapGame false, mapGame true,
        mapGame true, mapGame false, mapGame true].foldl updateStandings
          { initStandings with stage := some stage1 }).stageWins) teamA =
      aget 0 ({ initStandings with stage := some stage1 } : Standings).stageWins teamA + 1 ∧
    aget 0 (([mapGame true, mapGame false, mapGame false, mapGame true,
        mapGame true, mapGame false, mapGame true].foldl updateStandings
          { initStandings with stage := some stage1 }).stageWins) teamB =
      aget 0 ({ initStandings with stage := some stage1 } : Standings).stageWins teamB := by
  exact c1_match_retraction { initStandings with stage := some stage1 }
    teamA teamB stage1 5
    [mapGame true, mapGame false, mapGame false, mapGame true,
      mapGame true, mapGame false, mapGame true]
    (by decide) rfl (by decide) (by decide) (by decide) (by decide)

theorem updateMatchIds_keeps (s : Standings) (m : Int) (t : String × String) :
    (updateMatchIds s m t).mapDiffs = s.mapDiffs ∧
    (updateMatchIds s m t).stageWins = s.stageWins := by
  rw [updateMatchIds]
  split_ifs <;> exact ⟨rfl, rfl⟩

/-! ### Claim C2: tallies of one decisive game

The claim as stated is false on the code: `_update_standings` moves the
global map diff by one per decisive game, not by the game's score margin
(`self.map_diffs[winner] += 1`).  The amended claim replaces ±4 by ±1. -/

/-- Concrete 4–0 game used to refute C2 as stated. -/
def gameC2 : Game where
  teams := (teamA, teamB)
  score := (4, 0)
  stage := stage1
  matchId := 1
  matchFormat := fmtRegular
  drawable := false
  rosters := ([], [])

/-- Counterexample to C2 as stated: a decisive 4–0 regular game from a tied
running match score moves the winner's global map diff by 1, not 4. -/
theorem c2_counterexample :
    aget 0 (updateStandings initStandings gameC2).mapDiffs teamA -
      aget 0 initStandings.mapDiffs teamA = 1 ∧
    ¬ (aget 0 (updateStandings initStandings gameC2).mapDiffs teamA -
        aget 0 initStandings.mapDiffs teamA = 4) := by
  decide

/-- Claim C2 (amended): feeding one decisive regular-format game in which A
beats B 4–0 from a tied running match score moves the global map diff of A
by +1, the global map diff of B by −1, and raises A's stage win counter
by 1. -/
theorem c2_decisive_game_tallies (s : Standings) (g : Game) (A B : String)
    (hAB : A ≠ B) (hg : g.teams = (A, B)) (hscore : g.score = (4, 0))
    (hfmt : g.matchFormat = "regular")
    (hstage : some g.stage = s.stage)
    (htied : s.matchId = some g.matchId → aget 0 s.score A = aget 0 s.score B) :
    aget 0 (updateStandings s g).mapDiffs A = aget 0 s.mapDiffs A + 1 ∧
    aget 0 (updateStandings s g).mapDiffs B = aget 0 s.mapDiffs B - 1 ∧
    aget 0 (updateStandings s g).stageWins A = aget 0 s.stageWins A + 1 := by
  have hw : (if g.score.2 < g.score.1 then g.teams else (g.teams.2, g.teams.1)) = (A, B) := by
    rw [hscore]
    norm_num
    exact hg
  have hfmt2 : g.matchFormat ≠ "title" := by
    rw [hfmt]
    decide
  have hdec : g.score.1 ≠ g.score.2 := by
    rw [hscore]
    decide
  by_cases hm : some g.matchId = s.matchId
  · obtain ⟨_, _, f3, _, f5, _, _⟩ := decisiveStep s g A B hw hfmt2 hdec hstage hm
    have ht := htied hm.symm
    refine ⟨?_, ?_, ?_⟩
    · rw [f3, aget_addAt_ne _ _ (Ne.symm hAB), aget_addAt_self]
    · rw [f3, aget_addAt_self, aget_addAt_ne _ _ hAB]
      ring
    · rw [f5, if_pos ht, aget_addAt_self]
  · have hstage1 : updateStage s g.stage = s := updateStage_self _ _ hstage
    have hkeep := updateMatchIds_keeps (updateStage s g.stage) g.matchId g.teams
    have hnew := updateMatchIds_new_fields (updateStage s g.stage) g.matchId g.teams
      (by rw [hstage1]; exact hm)
    have hmid2 : some g.matchId =
        (updateMatchIds (updateStage s g.stage) g.matchId g.teams).matchId :=
      (updateMatchIds_matchId _ _ _).symm
    have hstage2 : some g.stage =
        (updateMatchIds (updateStage s g.stage) g.matchId g.teams).stage := by
      rw [updateMatchIds_stage, hstage1, ← hstage]
    obtain ⟨_, _, f3, _, f5, _, _⟩ := decisiveStep
      (updateMatchIds (updateStage s g.stage) g.matchId g.teams) g A B hw hfmt2 hdec
      hstage2 hmid2
    rw [← updateStandings_eq_mid] at f3 f5
    rw [hstage1] at hkeep hnew
    have ht : aget 0 (updateMatchIds s g.matchId g.teams).score A =
        aget 0 (updateMatchIds s g.matchId g.teams).score B := by
      rw [hnew.1, aget_fresh_score, aget_fresh_score]
    rw [hstage1] at f3 f5
    refine ⟨?_, ?_, ?_⟩
    · rw [f3, hkeep.1, aget_addAt_ne _ _ (Ne.symm hAB), aget_addAt_self]
    · rw [f3, hkeep.1, aget_addAt_self, aget_addAt_ne _ _ hAB]
      ring
    · rw [f5, if_pos ht, hkeep.2, aget_addAt_self]

/-- Witness for the amended C2 at a concrete state. -/
theorem c2_decisive_game_tallies_witness :
    aget 0 (updateStandings { initStandings with stage := some stage1 } gameC2).mapDiffs teamA =
      aget 0 ({ initStandings with stage := some stage1 } : Standings).mapDiffs teamA + 1 ∧
    aget 0 (updateStandings { initStandings with stage := some stage1 } gameC2).mapDiffs teamB =
      aget 0 ({ initStandings with stage := some stage1 } : Standings).mapDiffs teamB - 1 ∧
    aget 0 (updateStandings { initStandings with stage := some stage1 } gameC2).stageWins teamA =
      aget 0 ({ initStandings with stage := some stage1 } : Standings).stageWins teamA + 1 := by
  exact c2_decisive_game_tallies { initStandings with stage := some stage1 } gameC2
    teamA teamB (by decide) rfl rfl rfl rfl (by intro h; decide)


/-! ### The series outcome calculator

`_predict_bo_match_score` keeps a probability mass function over score pairs
in a `defaultdict(float)`; floats are modelled as exact rationals.  The
Python tie-breaker block reuses the loop variable `p_loss` from the *last*
iteration of the drawables loop (and raises `NameError` when the drawables
list is empty); the model carries that stale value explicitly as an
`Option ℚ`. -/

/-- Probability mass over series scores. -/
abbrev PMap := List ((Nat × Nat) × ℚ)

/-- One scheduled map: redistribute every mass `p` into a win `p * p_win`, a
loss `p * p_loss` and, only on a drawable map, a draw `p * p_draw`. -/
def pstep (pw pd : ℚ) (drawable : Bool) (m : PMap) : PMap :=
  m.foldl (fun acc kp =>
    let acc := addAt acc (kp.1.1 + 1, kp.1.2) (kp.2 * pw)
    let acc := addAt acc (kp.1.1, kp.1.2 + 1) (kp.2 * (1 - pw - pd))
    if drawable then addAt acc (kp.1.1, kp.1.2) (kp.2 * pd) else acc) []

/-- The drawables loop of `_predict_bo_match_score`; the second component is
the value left in the Python variable `p_loss` after the loop (absent when
the loop body never ran). -/
def runMaps (pu pdw : ℚ × ℚ) : List Bool → PMap × Option ℚ → PMap × Option ℚ
  | [], acc => acc
  | d :: ds, acc =>
    let pw := (if d then pdw else pu).1
    let pd := (if d then pdw else pu).2
    runMaps pu pdw ds (pstep pw pd d acc.1, some (1 - pw - pd))

/-- The tie-breaker block: a tied score plays one more undrawable map, using
`p_win` from the undrawable prediction but the stale `p_loss`; reading an
unbound `p_loss` (`none`) is the Python `NameError`. -/
def tiebreak (pw : ℚ) (plOpt : Option ℚ) : PMap → PMap → Option PMap
  | [], acc => some acc
  | kp :: m, acc =>
    if kp.1.1 = kp.1.2 then
      match plOpt with
      | none => none
      | some pl =>
        tiebreak pw plOpt m
          (addAt (addAt acc (kp.1.1 + 1, kp.1.2) (kp.2 * pw)) (kp.1.1, kp.1.2 + 1) (kp.2 * pl))
    else tiebreak pw plOpt m (addAt acc kp.1 kp.2)

/-- `Predictor._predict_bo_match_score`, given the undrawable and drawable
per-map `(p_win, p_draw)` predictions and the format's drawable flags. -/
def predictBoMatchScore (pu pdw : ℚ × ℚ) (ds : List Bool) : Option PMap :=
  let r := runMaps pu pdw ds ([((0, 0), 1)], none)
  tiebreak pu.1 r.2 r.1 []

/-- `Predictor.predict_match_score`: only the `regular` and `title` formats
are supported; anything else raises `NotImplementedError` (modelled as
`none`). -/
def predictMatchScore (pu pdw : ℚ × ℚ) (fmt : String) : Option PMap :=
  if fmt = "regular" then predictBoMatchScore pu pdw [true, false, true, false]
  else if fmt = "title" then predictBoMatchScore pu pdw [false, false, true, true, false]
  else none

theorem mtotal_pstep (pw pd : ℚ) (d : Bool) (m : PMap) :
    mtotal (pstep pw pd d m) = (if d then 1 else 1 - pd) * mtotal m := by
  have key : ∀ (l : PMap) (acc : PMap),
      mtotal (l.foldl (fun acc kp =>
        let acc := addAt acc (kp.1.1 + 1, kp.1.2) (kp.2 * pw)
        let acc := addAt acc (kp.1.1, kp.1.2 + 1) (kp.2 * (1 - pw - pd))
        if d then addAt acc (kp.1.1, kp.1.2) (kp.2 * pd) else acc) acc) =
      mtotal acc + (if d then 1 else 1 - pd) * mtotal l := by
    intro l
    induction l with
    | nil =>
      intro acc
      simp [mtotal]
    | cons kp l ih =>
      intro acc
      rw [List.foldl_cons, ih]
      by_cases hd : d
      · simp only [if_pos hd, mtotal_addAt]
        simp only [mtotal, List.map_cons, List.sum_cons]
        ring
      · simp only [if_neg hd, mtotal_addAt]
        simp only [mtotal, List.map_cons, List.sum_cons]
        ring
  rw [pstep, key]
  simp [mtotal]

theorem runMaps_total (pu pdw : ℚ × ℚ) (hpu : pu.2 = 0) :
    ∀ (ds : List Bool) (acc : PMap × Option ℚ),
      mtotal (runMaps pu pdw ds acc).1 = mtotal acc.1
  | [], acc => rfl
  | d :: ds, acc => by
    rw [runMaps, runMaps_total pu pdw hpu ds]
    by_cases hd : d
    · simp [hd, mtotal_pstep]
    · simp [hd, mtotal_pstep, hpu]

theorem runMaps_last (pu pdw : ℚ × ℚ) :
    ∀ (ds : List Bool) (acc : PMap × Option ℚ), ds.getLast? = some false →
      (runMaps pu pdw ds acc).2 = some (1 - pu.1 - pu.2)
  | [], _, h => by simp at h
  | d :: ds, acc, h => by
    cases ds with
    | nil =>
      simp at h
      subst h
      simp [runMaps]
    | cons d2 ds2 =>
      rw [runMaps]
      exact runMaps_last pu pdw (d2 :: ds2) _ (by simpa using h)

theorem runMaps_snd_some (pu pdw : ℚ × ℚ) :
    ∀ (ds : List Bool) (acc : PMap × Option ℚ), ds ≠ [] →
      ∃ q, (runMaps pu pdw ds acc).2 = some q
  | [], _, h => absurd rfl h
  | d :: ds, acc, _ => by
    cases ds with
    | nil => exact ⟨_, rfl⟩
    | cons d2 ds2 =>
      rw [runMaps]
      exact runMaps_snd_some pu pdw (d2 :: ds2) _ (by simp)

theorem tiebreak_total (pw pl : ℚ) (hsum : pw + pl = 1) :
    ∀ (m acc : PMap), ∃ r, tiebreak pw (some pl) m acc = some r ∧
      mtotal r = mtotal acc + mtotal m
  | [], acc => ⟨acc, rfl, by simp [mtotal]⟩
  | kp :: m, acc => by
    by_cases hk : kp.1.1 = kp.1.2
    · obtain ⟨r, hr, htot⟩ := tiebreak_total pw pl hsum m
        (addAt (addAt acc (kp.1.1 + 1, kp.1.2) (kp.2 * pw)) (kp.1.1, kp.1.2 + 1) (kp.2 * pl))
      refine ⟨r, ?_, ?_⟩
      · rw [tiebreak, if_pos hk]
        exact hr
      · rw [htot, mtotal_addAt, mtotal_addAt]
        simp only [mtotal, List.map_cons, List.sum_cons]
        have hkp : kp.2 * pw + kp.2 * pl = kp.2 := by
          rw [← mul_add, hsum, mul_one]
        linarith
    · obtain ⟨r, hr, htot⟩ := tiebreak_total pw pl hsum m (addAt acc kp.1 kp.2)
      refine ⟨r, ?_, ?_⟩
      · rw [tiebreak, if_neg hk]
        exact hr
      · rw [htot, mtotal_addAt]
        simp only [mtotal, List.map_cons, List.sum_cons]
        ring

theorem tiebreak_some (pw pl : ℚ) :
    ∀ (m acc : PMap), ∃ r, tiebreak pw (some pl) m acc = some r
  | [], acc => ⟨acc, rfl⟩
  | kp :: m, acc => by
    by_cases hk : kp.1.1 = kp.1.2
    · obtain ⟨r, hr⟩ := tiebreak_some pw pl m
        (addAt (addAt acc (kp.1.1 + 1, kp.1.2) (kp.2 * pw)) (kp.1.1, kp.1.2 + 1) (kp.2 * pl))
      exact ⟨r, by rw [tiebreak, if_pos hk]; exact hr⟩
    · obtain ⟨r, hr⟩ := tiebreak_some pw pl m (addAt acc kp.1 kp.2)
      exact ⟨r, by rw [tiebreak, if_neg hk]; exact hr⟩


theorem predictBo_isSome (pu pdw : ℚ × ℚ) (ds : List Bool) (h : ds ≠ []) :
    (predictBoMatchScore pu pdw ds).isSome = true := by
  obtain ⟨q, hq⟩ := runMaps_snd_some pu pdw ds ([((0, 0), 1)], none) h
  rw [predictBoMatchScore]
  rw [hq]
  obtain ⟨r, hr⟩ := tiebreak_some pu.1 q (runMaps pu pdw ds ([((0, 0), 1)], none)).1 []
  rw [hr]
  rfl

/-! ### Claim C3: the output distribution sums to 1

As stated the claim is false: an undrawable map multiplies the total mass by
`1 - p_draw` of the *undrawable* prediction (the draw mass is dropped, not
redistributed), and the tie-breaker reuses the stale `p_loss` of the last
scheduled map.  It holds when the undrawable prediction carries no draw mass
and the format ends with an undrawable map — which is the case for both
shipped formats and both shipped model families. -/

/-- Counterexample to C3 as stated: a single undrawable map with an
undrawable prediction `(1/2, 1/4)` (nonnegative, summing below 1) loses the
draw mass; the output totals 3/4. -/
theorem c3_counterexample :
    (0 ≤ (1 : ℚ)/2 ∧ 0 ≤ (1 : ℚ)/4 ∧ (1 : ℚ)/2 + 1/4 ≤ 1) ∧
    (predictBoMatchScore (1/2, 1/4) (1/2, 1/4) [false]).map mtotal = some (3/4) ∧
    ((3 : ℚ)/4) ≠ 1 := by
  refine ⟨by norm_num, ?_, by norm_num⟩
  simp only [predictBoMatchScore, runMaps, pstep, tiebreak, addAt, aget, aset,
    List.foldl_cons, List.foldl_nil]
  norm_num [mtotal]

/-- Claim C3 (amended): for every nonempty drawable-flag sequence whose last
map is undrawable, and per-map probability pairs within `[0,1]` whose
undrawable pair has `p_draw = 0` (as both shipped models guarantee), the
series-score distribution exists and sums to exactly 1. -/
theorem c3_series_distribution_sum (pu pdw : ℚ × ℚ) (ds : List Bool)
    (hpw : 0 ≤ pu.1) (hpd : 0 ≤ pu.2) (hpu : pu.1 + pu.2 ≤ 1)
    (hqw : 0 ≤ pdw.1) (hqd : 0 ≤ pdw.2) (hq : pdw.1 + pdw.2 ≤ 1)
    (hdraw0 : pu.2 = 0) (hne : ds ≠ []) (hlast : ds.getLast? = some false) :
    ∃ r, predictBoMatchScore pu pdw ds = some r ∧ mtotal r = 1 := by
  have h2 := runMaps_last pu pdw ds ([((0, 0), 1)], none) hlast
  have h1 := runMaps_total pu pdw hdraw0 ds ([((0, 0), 1)], none)
  have hsum : pu.1 + (1 - pu.1 - pu.2) = 1 := by
    rw [hdraw0]
    ring
  rw [predictBoMatchScore]
  rw [h2]
  obtain ⟨r, hr, htot⟩ :=
    tiebreak_total pu.1 (1 - pu.1 - pu.2) hsum (runMaps pu pdw ds ([((0, 0), 1)], none)).1 []
  refine ⟨r, hr, ?_⟩
  rw [htot, h1]
  simp [mtotal]

/-- Witness for the amended C3. -/
theorem c3_series_distribution_sum_witness :
    ∃ r, predictBoMatchScore ((1 : ℚ)/3, 0) ((1 : ℚ)/4, (1 : ℚ)/4) [true, false] = some r ∧
      mtotal r = 1 :=
  c3_series_distribution_sum ((1 : ℚ)/3, 0) ((1 : ℚ)/4, (1 : ℚ)/4) [true, false]
    (by norm_num) (by norm_num) (by norm_num) (by norm_num) (by norm_num) (by norm_num)
    rfl (by decide) (by decide)

/-! ### Claim C9: supported match formats -/

/-- Claim C9: `predict_match_score` produces a series-score distribution for
the `regular` format (drawable flags `[drawable, undrawable, drawable,
undrawable]` plus the untied decider) and the `title` format (`[undrawable,
undrawable, drawable, drawable, undrawable]` plus the decider), and fails
(`NotImplementedError`, modelled as `none`) on every other format string;
being a pure function of its inputs, it touches no predictor state. -/
theorem c9_match_format_handling (pu pdw : ℚ × ℚ) (fmt : String) :
    (fmt = "regular" → predictMatchScore pu pdw fmt =
        predictBoMatchScore pu pdw [true, false, true, false] ∧
      (predictMatchScore pu pdw fmt).isSome = true) ∧
    (fmt = "title" → predictMatchScore pu pdw fmt =
        predictBoMatchScore pu pdw [false, false, true, true, false] ∧
      (predictMatchScore pu pdw fmt).isSome = true) ∧
    (fmt ≠ "regular" → fmt ≠ "title" → predictMatchScore pu pdw fmt = none) := by
  refine ⟨?_, ?_, ?_⟩
  · intro h
    subst h
    rw [predictMatchScore, if_pos rfl]
    exact ⟨rfl, predictBo_isSome pu pdw _ (by simp)⟩
  · intro h
    subst h
    rw [predictMatchScore, if_neg (by decide), if_pos rfl]
    exact ⟨rfl, predictBo_isSome pu pdw _ (by simp)⟩
  · intro h1 h2
    rw [predictMatchScore, if_neg h1, if_neg h2]

/-- Witness for C9: the regular format succeeds, an unknown format fails. -/
theorem c9_match_format_handling_witness :
    (predictMatchScore ((1 : ℚ)/3, 0) ((1 : ℚ)/4, (1 : ℚ)/4) fmtRegular).isSome = true ∧
    predictMatchScore ((1 : ℚ)/3, 0) ((1 : ℚ)/4, (1 : ℚ)/4) ("bo9") = none :=
  ⟨((c9_match_format_handling ((1 : ℚ)/3, 0) ((1 : ℚ)/4, (1 : ℚ)/4) fmtRegular).1 rfl).2,
   (c9_match_format_handling ((1 : ℚ)/3, 0) ((1 : ℚ)/4, (1 : ℚ)/4) ("bo9")).2.2
     (by decide) (by decide)⟩


/-! ### Claim C8: `Predictor.evaluate`

`evaluate` clamps `p_win` and `p_draw` to `[0,1]` but derives
`p_loss = 1 - p_win - p_draw` *after* clamping without clamping it again, so
the probability scored on the losing side can be negative and `log` can be
called on a nonpositive argument (a Python `ValueError`, modelled as
`none`). -/

/-- `max(0.0, min(p, 1.0))`. -/
def clamp01 (x : ℚ) : ℚ := max 0 (min x 1)

/-- `Predictor.evaluate`, with the model's prediction `(p_win, p_draw)`
passed in as arguments.  Returns the prediction point `ln(2 p)` and the
correctness flag, `(0, False)` on a drawn game, and `none` when `log`
receives a nonpositive argument. -/
noncomputable def evaluate (score : Int × Int) (pwin pdraw : ℚ) : Option (ℝ × Bool) :=
  if score.1 = score.2 then some (0, false)
  else
    let pw := clamp01 pwin
    let pd := clamp01 pdraw
    let pl := 1 - pw - pd
    let pc := if score.2 < score.1 then (pw, decide (pl < pw)) else (pl, decide (pw < pl))
    if 0 < 2 * pc.1 then some (Real.log ((2 * pc.1 : ℚ) : ℝ), pc.2) else none

/-- Counterexample to C8 as stated: with model output
`(p_win, p_draw) = (0.8, 0.5)` (each already inside `[0,1]`) and a game lost
by the first team, the scored probability is `p_loss = -0.3`, and evaluation
hits `log` of a negative number. -/
theorem c8_counterexample :
    evaluate (0, 1) ((4 : ℚ)/5) ((1 : ℚ)/2) = none := by
  rw [evaluate]
  norm_num [clamp01]

/-- Claim C8 (amended): `evaluate` returns `(0, false)` on equal scores; the
clamping covers `p_win` and `p_draw` only, so the probability scored on the
winning side always lies in `[0,1]` (and scoring fails exactly when it
clamps to 0), while the probability scored on the losing side is the
unclamped `1 - p_win - p_draw ∈ [-1, 1]`, and scoring fails exactly when it
is nonpositive. -/
theorem c8_evaluate_clamping (score : Int × Int) (pwin pdraw : ℚ) :
    (score.1 = score.2 → evaluate score pwin pdraw = some (0, false)) ∧
    (score.2 < score.1 →
      0 ≤ clamp01 pwin ∧ clamp01 pwin ≤ 1 ∧
      (evaluate score pwin pdraw = none ↔ clamp01 pwin = 0)) ∧
    (score.1 < score.2 →
      -1 ≤ 1 - clamp01 pwin - clamp01 pdraw ∧ 1 - clamp01 pwin - clamp01 pdraw ≤ 1 ∧
      (evaluate score pwin pdraw = none ↔ 1 - clamp01 pwin - clamp01 pdraw ≤ 0)) := by
  have hc : ∀ x : ℚ, 0 ≤ clamp01 x ∧ clamp01 x ≤ 1 := by
    intro x
    constructor
    · exact le_max_left 0 _
    · rw [clamp01, max_le_iff]
      constructor
      · norm_num
      · exact min_le_right x 1
  refine ⟨?_, ?_, ?_⟩
  · intro h
    rw [evaluate, if_pos h]
  · intro h
    have hne : score.1 ≠ score.2 := by omega
    refine ⟨(hc pwin).1, (hc pwin).2, ?_⟩
    rw [evaluate, if_neg hne]
    simp only [if_pos h]
    split_ifs with hp
    · simp only [reduceCtorEq, false_iff]
      intro h0
      rw [h0] at hp
      norm_num at hp
    · simp only [true_iff]
      have := (hc pwin).1
      linarith [hp]
  · intro h
    have hne : score.1 ≠ score.2 := by omega
    have hlt : ¬ score.2 < score.1 := by omega
    refine ⟨?_, ?_, ?_⟩
    · linarith [(hc pwin).2, (hc pdraw).2]
    · linarith [(hc pwin).1, (hc pdraw).1]
    · rw [evaluate, if_neg hne]
      simp only [if_neg hlt]
      split_ifs with hp
      · simp only [reduceCtorEq, false_iff]
        intro h0
        linarith
      · simp only [true_iff]
        linarith [hp]

/-- Witness for the amended C8: a drawn game scores `(0, false)`, and on a
decisive game the winning-side probability is the clamped `p_win`. -/
theorem c8_evaluate_clamping_witness :
    evaluate (2, 2) ((3 : ℚ)/4) ((1 : ℚ)/10) = some (0, false) ∧
    (0 ≤ clamp01 ((3 : ℚ)/4) ∧ clamp01 ((3 : ℚ)/4) ≤ 1 ∧
      (evaluate (1, 0) ((3 : ℚ)/4) ((1 : ℚ)/10) = none ↔ clamp01 ((3 : ℚ)/4) = 0)) :=
  ⟨(c8_evaluate_clamping (2, 2) ((3 : ℚ)/4) ((1 : ℚ)/10)).1 rfl,
   (c8_evaluate_clamping (1, 0) ((3 : ℚ)/4) ((1 : ℚ)/10)).2.1 (by norm_num)⟩


/-! ### Claim C10: `predict_stage` bound tightening and title completion

`_predict_stage` itself is Monte Carlo; its sampled output enters
`predict_stage` as the `prediction` dict, modelled here as an input
association list of `(p_top3, p_top1)` floats.  The deterministic
post-processing replaces entries by booleans: eliminated teams get
`(False, False)`, clinched teams get `p_top3 = True` and a `p_top1`
resolved by title losses and `stage_finished`.  Python tuple comparison is
the lexicographic order below; `sorted(...)[-3]` / `[-4]` require at least
3 resp. 4 teams (`IndexError`, modelled as `none`), and `min_wins[team]`
raises `KeyError` for a game team absent from the prediction (also
`none`). -/

def pyLtPair (a b : Int × Int) : Prop := a.1 < b.1 ∨ (a.1 = b.1 ∧ a.2 < b.2)

def pyLePair (a b : Int × Int) : Prop := a.1 < b.1 ∨ (a.1 = b.1 ∧ a.2 ≤ b.2)

instance : DecidableRel pyLtPair := fun a b =>
  inferInstanceAs (Decidable (a.1 < b.1 ∨ (a.1 = b.1 ∧ a.2 < b.2)))

instance : DecidableRel pyLePair := fun a b =>
  inferInstanceAs (Decidable (a.1 < b.1 ∨ (a.1 = b.1 ∧ a.2 ≤ b.2)))

/-- `min_wins[team] = (win, map_diff - 4)`. -/
def bumpMin (f : String → Int × Int) (t : String) : String → Int × Int :=
  fun x => if x = t then ((f t).1, (f t).2 - 4) else f x

/-- `max_wins[team] = (win + 1, map_diff + 4)`. -/
def bumpMax (f : String → Int × Int) (t : String) : String → Int × Int :=
  fun x => if x = t then ((f t).1 + 1, (f t).2 + 4) else f x

/-- The filter at the top of `predict_stage`: same stage, regular format. -/
def stageGames (s : Standings) (games : List Game) : List Game :=
  games.filter (fun g => decide (some g.stage = s.stage) && decide (g.matchFormat = "regular"))

/-- Worst-case `(wins, map_diff)` per team after the remaining games. -/
def minWinsF (s : Standings) (games : List Game) : String → Int × Int :=
  (stageGames s games).foldl (fun f g => bumpMin (bumpMin f g.teams.1) g.teams.2)
    (fun t => (aget 0 s.stageWins t, aget 0 s.stageMapDiffs t))

/-- Best-case `(wins, map_diff)` per team after the remaining games. -/
def maxWinsF (s : Standings) (games : List Game) : String → Int × Int :=
  (stageGames s games).foldl (fun f g => bumpMax (bumpMax f g.teams.1) g.teams.2)
    (fun t => (aget 0 s.stageWins t, aget 0 s.stageMapDiffs t))

/-- `list(sorted(d.values()))` for a dict built over `teams` in order. -/
def sortedVals (teams : List String) (f : String → Int × Int) : List (Int × Int) :=
  (teams.map f).insertionSort pyLePair

/-- `min_3rd_wins = list(sorted(min_wins.values()))[-3]`. -/
def min3rdOf (s : Standings) (pred : List (String × (ℚ × ℚ))) (games : List Game) : Int × Int :=
  (sortedVals (pred.map Prod.fst) (minWinsF s games)).getD ((pred.map Prod.fst).length - 3) (0, 0)

/-- `max_4th_wins = list(sorted(max_wins.values()))[-4]`. -/
def max4thOf (s : Standings) (pred : List (String × (ℚ × ℚ))) (games : List Game) : Int × Int :=
  (sortedVals (pred.map Prod.fst) (maxWinsF s games)).getD ((pred.map Prod.fst).length - 4) (0, 0)

/-- The deterministic part of `Predictor.predict_stage`, taking the Monte
Carlo estimate `pred` as input and normalizing entries to definite
booleans where the bounds allow it. -/
def predictStageMark (s : Standings) (pred : List (String × (ℚ × ℚ))) (games : List Game) :
    Option (List (String × ((ℚ ⊕ Bool) × (ℚ ⊕ Bool)))) :=
  let teams := pred.map Prod.fst
  if (stageGames s games).all (fun g => teams.contains g.teams.1 && teams.contains g.teams.2) then
    if 4 ≤ teams.length then
      some (pred.map (fun tp =>
        if pyLtPair (maxWinsF s games tp.1) (min3rdOf s pred games) then
          (tp.1, (Sum.inr false, Sum.inr false))
        else if pyLtPair (max4thOf s pred games) (minWinsF s games tp.1) then
          (tp.1, (Sum.inr true,
            if 0 < aget 0 s.stageTitleLosses tp.1 then Sum.inr false
            else if stageFinished s then Sum.inr true
            else Sum.inl tp.2.2))
        else (tp.1, (Sum.inl tp.2.1, Sum.inl tp.2.2))))
    else none
  else none

theorem keyUnique {α β : Type} (l : List (α × β)) (hnd : (l.map Prod.fst).Nodup)
    {a : α} {b1 b2 : β} (h1 : (a, b1) ∈ l) (h2 : (a, b2) ∈ l) : b1 = b2 := by
  induction l with
  | nil => cases h1
  | cons p l ih =>
    rw [List.map_cons, List.nodup_cons] at hnd
    rcases List.mem_cons.1 h1 with he1 | ht1 <;> rcases List.mem_cons.1 h2 with he2 | ht2
    · rw [← he1] at he2
      exact (Prod.mk.injEq a b1 a b2 ▸ he2.symm).2
    · exact absurd (List.mem_map.2 ⟨(a, b2), ht2, by rw [← he1]⟩) hnd.1
    · exact absurd (List.mem_map.2 ⟨(a, b1), ht1, by rw [← he2]⟩) hnd.1
    · exact ih hnd.2 ht1 ht2


/-- Claim C10: the predictor deems the stage's title matches complete exactly
when the recorded stage title losses sum to 2, and in the `predict_stage`
post-processing a team whose bounds deterministically clinch top 3 is marked
a definite champion (`top-1 = True`) exactly when it has no recorded title
loss and the title matches are complete under that condition; a clinched
team with a recorded title loss is marked definitely not champion. -/
theorem c10_stage_finished_marking (s : Standings) (pred : List (String × (ℚ × ℚ)))
    (games : List Game) (out : List (String × ((ℚ ⊕ Bool) × (ℚ ⊕ Bool))))
    (t : String) (q3 q1 : ℚ) (p3 p1 : ℚ ⊕ Bool)
    (hout : predictStageMark s pred games = some out)
    (hnd : (pred.map Prod.fst).Nodup)
    (hin : (t, (q3, q1)) ∈ pred)
    (hpout : (t, (p3, p1)) ∈ out) :
    (stageFinished s = true ↔ mtotal s.stageTitleLosses = 2) ∧
    (p1 = Sum.inr true ↔
      (¬ pyLtPair (maxWinsF s games t) (min3rdOf s pred games) ∧
       pyLtPair (max4thOf s pred games) (minWinsF s games t) ∧
       ¬ 0 < aget 0 s.stageTitleLosses t ∧
       mtotal s.stageTitleLosses = 2)) ∧
    ((¬ pyLtPair (maxWinsF s games t) (min3rdOf s pred games) ∧
      pyLtPair (max4thOf s pred games) (minWinsF s games t) ∧
      0 < aget 0 s.stageTitleLosses t) → p1 = Sum.inr false) := by
  have hfin : stageFinished s = true ↔ mtotal s.stageTitleLosses = 2 := by
    rw [stageFinished]
    exact beq_iff_eq
  rw [predictStageMark] at hout
  by_cases hall : ((stageGames s games).all (fun g =>
      (pred.map Prod.fst).contains g.teams.1 &&
      (pred.map Prod.fst).contains g.teams.2)) = true
  swap
  · rw [if_neg hall] at hout
    cases hout
  rw [if_pos hall] at hout
  by_cases hlen : 4 ≤ (pred.map Prod.fst).length
  swap
  · rw [if_neg hlen] at hout
    cases hout
  rw [if_pos hlen] at hout
  have hmap := Option.some.inj hout
  rw [← hmap] at hpout
  obtain ⟨tp, htp, hftp⟩ := List.mem_map.1 hpout
  have hkey : tp.1 = t := by
    by_cases hc1 : pyLtPair (maxWinsF s games tp.1) (min3rdOf s pred games)
    · rw [if_pos hc1] at hftp
      exact congrArg Prod.fst hftp
    · rw [if_neg hc1] at hftp
      by_cases hc2 : pyLtPair (max4thOf s pred games) (minWinsF s games tp.1)
      · rw [if_pos hc2] at hftp
        exact congrArg Prod.fst hftp
      · rw [if_neg hc2] at hftp
        exact congrArg Prod.fst hftp
  obtain ⟨t1, v1⟩ := tp
  simp only at hkey
  rw [hkey] at htp hftp
  have hv := keyUnique pred hnd htp hin
  rw [hv] at htp hftp
  refine ⟨hfin, ?_, ?_⟩ <;>
    by_cases hc1 : pyLtPair (maxWinsF s games t) (min3rdOf s pred games)
  · rw [if_pos hc1] at hftp
    simp only [Prod.mk.injEq] at hftp
    rw [← hftp.2.2]
    simp only [Sum.inr.injEq, Bool.false_eq_true, reduceCtorEq, false_iff]
    rintro ⟨hn1, -, -, -⟩
    exact hn1 hc1
  · rw [if_neg hc1] at hftp
    by_cases hc2 : pyLtPair (max4thOf s pred games) (minWinsF s games t)
    · rw [if_pos hc2] at hftp
      simp only [Prod.mk.injEq] at hftp
      rw [← hftp.2.2]
      by_cases hl : 0 < aget 0 s.stageTitleLosses t
      · rw [if_pos hl]
        simp only [Sum.inr.injEq, Bool.false_eq_true, reduceCtorEq, false_iff]
        rintro ⟨-, -, hn, -⟩
        exact hn hl
      · rw [if_neg hl]
        by_cases hf : stageFinished s = true
        · rw [if_pos hf]
          simp only [true_iff]
          exact ⟨hc1, hc2, hl, hfin.1 hf⟩
        · rw [if_neg hf]
          simp only [Sum.inr.injEq, Bool.false_eq_true, reduceCtorEq, false_iff]
          rintro ⟨-, -, -, h2⟩
          exact hf (hfin.2 h2)
    · rw [if_neg hc2] at hftp
      simp only [Prod.mk.injEq] at hftp
      rw [← hftp.2.2]
      simp only [Sum.inr.injEq, Bool.false_eq_true, reduceCtorEq, false_iff]
      rintro ⟨-, hn, -, -⟩
      exact hc2 hn
  · rw [if_pos hc1] at hftp
    rintro ⟨hn1, -, -⟩
    exact absurd hc1 hn1
  · rw [if_neg hc1] at hftp
    rintro ⟨-, hc2, hl⟩
    rw [if_pos hc2] at hftp
    simp only [Prod.mk.injEq] at hftp
    rw [← hftp.2.2, if_pos hl]


def teamC : String := "C"

def teamD : String := "D"

/-- Concrete standings for the C10 witness: A has clinched with no title
loss, B has clinched but lost a title match, and the two recorded title
losses mean the title matches are over. -/
def s10 : Standings :=
  { initStandings with
      stage := some stage1
      stageWins := [(teamA, 5), (teamB, 4), (teamC, 1), (teamD, 1)]
      stageTitleLosses := [(teamB, 1), (teamC, 1)] }

/-- Monte Carlo estimate fed to the post-processing in the C10 witness. -/
def pred10 : List (String × (ℚ × ℚ)) :=
  [(teamA, (1, 1)), (teamB, (1, 0)), (teamC, (0, 0)), (teamD, (0, 0))]

/-- The marked output for the C10 witness state. -/
def out10 : List (String × ((ℚ ⊕ Bool) × (ℚ ⊕ Bool))) :=
  [(teamA, (Sum.inr true, Sum.inr true)),
   (teamB, (Sum.inr true, Sum.inr false)),
   (teamC, (Sum.inl 0, Sum.inl 0)),
   (teamD, (Sum.inl 0, Sum.inl 0))]

/-- Witness for C10 at the clinched-with-title-loss team B. -/
theorem c10_stage_finished_marking_witness :
    (stageFinished s10 = true ↔ mtotal s10.stageTitleLosses = 2) ∧
    ((Sum.inr false : ℚ ⊕ Bool) = Sum.inr true ↔
      (¬ pyLtPair (maxWinsF s10 [] teamB) (min3rdOf s10 pred10 []) ∧
       pyLtPair (max4thOf s10 pred10 []) (minWinsF s10 [] teamB) ∧
       ¬ 0 < aget 0 s10.stageTitleLosses teamB ∧
       mtotal s10.stageTitleLosses = 2)) ∧
    ((¬ pyLtPair (maxWinsF s10 [] teamB) (min3rdOf s10 pred10 []) ∧
      pyLtPair (max4thOf s10 pred10 []) (minWinsF s10 [] teamB) ∧
      0 < aget 0 s10.stageTitleLosses teamB) → (Sum.inr false : ℚ ⊕ Bool) = Sum.inr false) :=
  c10_stage_finished_marking s10 pred10 [] out10 teamB 1 0 (Sum.inr true) (Sum.inr false)
    (by decide) (by decide) (by simp [pred10, teamA, teamB]) (by simp [out10, teamA, teamB])


/-! ### The player-granularity TrueSkill model

Only the parts of `PlayerTrueSkillPredictor` that C6 and C7 speak about are
embedded: the roster-rating summary, best-roster selection, and the
post-training bookkeeping of `_update_teams_ratings` /
`_record_team_ratings`.  The Gaussian belief update itself (`env.rate`) is
the external `trueskill` library; its posterior ratings enter as the
`teamsRatings` argument, exactly as in the source.  Floats are modelled as
reals because the roster uncertainty takes a square root. -/

/-- A rating `(mu, sigma)`. -/
structure Rating where
  mu : ℝ
  sigma : ℝ

/-- The mutable state of `PlayerTrueSkillPredictor` used by C6/C7:
`self.ratings` (a defaultdict holding player *and* team ratings),
`self.best_rosters`, `self.roster_queues`, and `self.ratings_history`. -/
structure PlayerModel where
  ratings : String → Rating
  bestRosters : String → Option (List String)
  rosterQueues : String → List (List String)
  ratingsHistory : List ((Option String × Int) × List (String × Rating))

/-- `_roster_rating`: `mu = (Σ mu)/6`, `sigma = sqrt(Σ sigma²)/6` (the sum
under the square root is *not* averaged before the root is taken, and the
divisor is 6 whatever the roster length). -/
noncomputable def rosterRating (ratings : String → Rating) (roster : List String) : Rating :=
  ⟨(roster.map (fun n => (ratings n).mu)).sum / 6,
   Real.sqrt ((roster.map (fun n => (ratings n).sigma ^ 2)).sum) / 6⟩

/-- `_min_roster_rating`: the roster's conservative score
`rating.mu - 3 * rating.sigma`. -/
noncomputable def minRosterRating (ratings : String → Rating) (roster : List String) : ℝ :=
  (rosterRating ratings roster).mu - 3 * (rosterRating ratings roster).sigma

/-- `_min_rating`: a single player's conservative score. -/
noncomputable def minRating (ratings : String → Rating) (name : String) : ℝ :=
  (ratings name).mu - 3 * (ratings name).sigma

open Classical in
/-- `_update_best_roster`: sort the queued rosters by `_min_roster_rating`
descending (Python's stable `sorted(..., reverse=True)`), take the first
fully-eligible one; otherwise fall back to the top 6 eligible players by
`_min_rating`.  Records the result in `best_rosters`. -/
noncomputable def updateBestRoster (pm : PlayerModel) (team : String) (members : List String) :
    List String × PlayerModel :=
  let rosters := (pm.rosterQueues team).insertionSort
    (fun r1 r2 => minRosterRating pm.ratings r2 ≤ minRosterRating pm.ratings r1)
  match rosters.find? (fun r => r.all (fun n => members.contains n)) with
  | some r =>
    (r, { pm with bestRosters := fun t => if t = team then some r else pm.bestRosters t })
  | none =>
    let sorted := members.insertionSort
      (fun n1 n2 => minRating pm.ratings n2 ≤ minRating pm.ratings n1)
    let r := sorted.take 6
    (r, { pm with bestRosters := fun t => if t = team then some r else pm.bestRosters t })

/-- `_record_team_ratings`: snapshot the eligible players' ratings into the
history keyed by `(stage, match number)`, refresh the best roster, and
record/return the team's summary rating. -/
noncomputable def recordTeamRatings (avail : (Option String × Int) → String → List String)
    (stage : Option String) (matchHistory : List ((Option String × String) × List Int))
    (pm : PlayerModel) (team : String) : Rating × PlayerModel :=
  let matchNumber : Int := (aget [] matchHistory (stage, team)).length
  let members := avail (stage, matchNumber) team
  let hist := aget [] pm.ratingsHistory (stage, matchNumber)
  let hist := members.foldl (fun h n => aset h n (pm.ratings n)) hist
  let rp := updateBestRoster pm team members
  let rating := rosterRating rp.2.ratings rp.1
  let hist2 := aset hist team rating
  (rating, { rp.2 with ratingsHistory := aset rp.2.ratingsHistory (stage, matchNumber) hist2 })

/-- The inner zip of `_update_teams_ratings`: overwrite each roster member's
rating with its posterior. -/
noncomputable def writeRatings (ratings : String → Rating) (roster : List String)
    (rs : List Rating) : String → Rating :=
  (roster.zip rs).foldl (fun f p => fun x => if x = p.1 then p.2 else f x) ratings

/-- One team's pass of `_update_teams_ratings`: write the posterior player
ratings, then store the team's recomputed summary rating. -/
noncomputable def updateTeamStep (avail : (Option String × Int) → String → List String)
    (stage : Option String) (mh : List ((Option String × String) × List Int))
    (pm : PlayerModel) (team : String) (roster : List String) (rs : List Rating) :
    PlayerModel :=
  let pm1 := { pm with ratings := writeRatings pm.ratings roster rs }
  let rp := recordTeamRatings avail stage mh pm1 team
  { rp.2 with ratings := fun x => if x = team then rp.1 else rp.2.ratings x }

/-- `PlayerTrueSkillPredictor._update_teams_ratings`: both teams, in order. -/
noncomputable def updateTeamsRatings (avail : (Option String × Int) → String → List String)
    (stage : Option String) (mh : List ((Option String × String) × List Int))
    (pm : PlayerModel) (g : Game) (tr : List Rating × List Rating) : PlayerModel :=
  let pm1 := updateTeamStep avail stage mh pm g.teams.1 g.rosters.1 tr.1
  updateTeamStep avail stage mh pm1 g.teams.2 g.rosters.2 tr.2

theorem updateBestRoster_ratings (pm : PlayerModel) (team : String) (members : List String) :
    (updateBestRoster pm team members).2.ratings = pm.ratings := by
  rw [updateBestRoster]
  cases h : ((pm.rosterQueues team).insertionSort
      (fun r1 r2 => minRosterRating pm.ratings r2 ≤ minRosterRating pm.ratings r1)).find?
      (fun r => r.all (fun n => members.contains n)) <;> simp [h]

theorem updateBestRoster_queues (pm : PlayerModel) (team : String) (members : List String) :
    (updateBestRoster pm team members).2.rosterQueues = pm.rosterQueues := by
  rw [updateBestRoster]
  cases h : ((pm.rosterQueues team).insertionSort
      (fun r1 r2 => minRosterRating pm.ratings r2 ≤ minRosterRating pm.ratings r1)).find?
      (fun r => r.all (fun n => members.contains n)) <;> simp [h]

theorem updateBestRoster_best (pm : PlayerModel) (team : String) (members : List String) :
    (updateBestRoster pm team members).2.bestRosters team =
      some (updateBestRoster pm team members).1 := by
  rw [updateBestRoster]
  cases h : ((pm.rosterQueues team).insertionSort
      (fun r1 r2 => minRosterRating pm.ratings r2 ≤ minRosterRating pm.ratings r1)).find?
      (fun r => r.all (fun n => members.contains n)) <;> simp [h]

theorem updateBestRoster_best_ne (pm : PlayerModel) (team : String) (members : List String)
    {t : String} (h : t ≠ team) :
    (updateBestRoster pm team members).2.bestRosters t = pm.bestRosters t := by
  rw [updateBestRoster]
  cases hf : ((pm.rosterQueues team).insertionSort
      (fun r1 r2 => minRosterRating pm.ratings r2 ≤ minRosterRating pm.ratings r1)).find?
      (fun r => r.all (fun n => members.contains n)) <;> simp [hf, h]

theorem recordTeamRatings_ratings (avail : (Option String × Int) → String → List String)
    (stage : Option String) (mh : List ((Option String × String) × List Int))
    (pm : PlayerModel) (team : String) :
    (recordTeamRatings avail stage mh pm team).2.ratings = pm.ratings := by
  rw [recordTeamRatings]
  exact updateBestRoster_ratings pm team _

theorem recordTeamRatings_best (avail : (Option String × Int) → String → List String)
    (stage : Option String) (mh : List ((Option String × String) × List Int))
    (pm : PlayerModel) (team : String) :
    ∃ b, (recordTeamRatings avail stage mh pm team).2.bestRosters team = some b ∧
      (recordTeamRatings avail stage mh pm team).1 = rosterRating pm.ratings b := by
  refine ⟨(updateBestRoster pm team
    (avail (stage, ((aget [] mh (stage, team)).length : Int)) team)).1, ?_, ?_⟩
  · rw [recordTeamRatings]
    exact updateBestRoster_best pm team _
  · rw [recordTeamRatings]
    rw [updateBestRoster_ratings]

theorem recordTeamRatings_best_ne (avail : (Option String × Int) → String → List String)
    (stage : Option String) (mh : List ((Option String × String) × List Int))
    (pm : PlayerModel) (team : String) {t : String} (h : t ≠ team) :
    (recordTeamRatings avail stage mh pm team).2.bestRosters t = pm.bestRosters t := by
  rw [recordTeamRatings]
  exact updateBestRoster_best_ne pm team _ h

theorem writeRatings_not_mem (roster : List String) :
    ∀ (ratings : String → Rating) (rs : List Rating) {x : String}, x ∉ roster →
      writeRatings ratings roster rs x = ratings x := by
  induction roster with
  | nil => intro ratings rs x h; rfl
  | cons n ns ih =>
    intro ratings rs x h
    cases rs with
    | nil => rfl
    | cons r rs =>
      have hx : x ∉ ns := fun hc => h (List.mem_cons_of_mem n hc)
      have hxn : x ≠ n := fun hc => h (hc ▸ List.mem_cons_self n ns)
      have h2 := ih (fun y => if y = n then r else ratings y) rs hx
      rw [writeRatings] at h2 ⊢
      simp only [List.zip_cons_cons, List.foldl_cons]
      rw [h2]
      simp [hxn]


theorem updateTeamStep_facts (avail : (Option String × Int) → String → List String)
    (stage : Option String) (mh : List ((Option String × String) × List Int))
    (pm : PlayerModel) (team : String) (roster : List String) (rs : List Rating) :
    ∃ b, (updateTeamStep avail stage mh pm team roster rs).bestRosters team = some b ∧
      (updateTeamStep avail stage mh pm team roster rs).ratings team =
        rosterRating (writeRatings pm.ratings roster rs) b ∧
      ∀ x, x ≠ team →
        (updateTeamStep avail stage mh pm team roster rs).ratings x =
          writeRatings pm.ratings roster rs x := by
  obtain ⟨b, hb, hr⟩ := recordTeamRatings_best avail stage mh
    { pm with ratings := writeRatings pm.ratings roster rs } team
  refine ⟨b, ?_, ?_, ?_⟩
  · rw [updateTeamStep]
    exact hb
  · rw [updateTeamStep]
    simp only [if_pos]
    exact hr
  · intro x hx
    rw [updateTeamStep]
    simp only [if_neg hx]
    rw [recordTeamRatings_ratings]

theorem updateTeamStep_bestRosters_ne (avail : (Option String × Int) → String → List String)
    (stage : Option String) (mh : List ((Option String × String) × List Int))
    (pm : PlayerModel) (team : String) (roster : List String) (rs : List Rating)
    {t : String} (h : t ≠ team) :
    (updateTeamStep avail stage mh pm team roster rs).bestRosters t = pm.bestRosters t := by
  rw [updateTeamStep]
  exact recordTeamRatings_best_ne avail stage mh _ team h

/-- Claim C7 (amended): after the player model trains on a game, each
participating team's stored summary rating has mean equal to the arithmetic
average of its selected roster's player means, and uncertainty equal to
`sqrt(Σ sigma²)/6` over the roster — the square root of the *sum* of
squared uncertainties divided by 6 (equivalently, the quadratic mean of the
uncertainties divided by √6), not the quadratic mean itself.  The
distinctness hypotheses rule out a roster member shadowing a team key in
the shared `self.ratings` dict. -/
theorem c7_team_summary_rating
    (avail : (Option String × Int) → String → List String) (stage : Option String)
    (mh : List ((Option String × String) × List Int)) (pm : PlayerModel) (g : Game)
    (tr : List Rating × List Rating) (t1 t2 : String)
    (hg : g.teams = (t1, t2)) (h12 : t1 ≠ t2) (h1r2 : t1 ∉ g.rosters.2) :
    (∀ r2b, (updateTeamsRatings avail stage mh pm g tr).bestRosters t2 = some r2b →
      (∀ n ∈ r2b, n ≠ t2) →
      ((updateTeamsRatings avail stage mh pm g tr).ratings t2).mu =
        (r2b.map (fun n => ((updateTeamsRatings avail stage mh pm g tr).ratings n).mu)).sum / 6 ∧
      ((updateTeamsRatings avail stage mh pm g tr).ratings t2).sigma =
        Real.sqrt ((r2b.map
          (fun n => ((updateTeamsRatings avail stage mh pm g tr).ratings n).sigma ^ 2)).sum) / 6) ∧
    (∀ r1b, (updateTeamsRatings avail stage mh pm g tr).bestRosters t1 = some r1b →
      (∀ n ∈ r1b, n ≠ t1 ∧ n ≠ t2 ∧ n ∉ g.rosters.2) →
      ((updateTeamsRatings avail stage mh pm g tr).ratings t1).mu =
        (r1b.map (fun n => ((updateTeamsRatings avail stage mh pm g tr).ratings n).mu)).sum / 6 ∧
      ((updateTeamsRatings avail stage mh pm g tr).ratings t1).sigma =
        Real.sqrt ((r1b.map
          (fun n => ((updateTeamsRatings avail stage mh pm g tr).ratings n).sigma ^ 2)).sum) / 6) := by
  have hE : updateTeamsRatings avail stage mh pm g tr =
      updateTeamStep avail stage mh
        (updateTeamStep avail stage mh pm t1 g.rosters.1 tr.1) t2 g.rosters.2 tr.2 := by
    rw [updateTeamsRatings, hg]
  obtain ⟨b1, hb1, hr1, ho1⟩ := updateTeamStep_facts avail stage mh pm t1 g.rosters.1 tr.1
  obtain ⟨b2, hb2, hr2, ho2⟩ := updateTeamStep_facts avail stage mh
    (updateTeamStep avail stage mh pm t1 g.rosters.1 tr.1) t2 g.rosters.2 tr.2
  constructor
  · intro r2b hsome hmem
    rw [hE, hb2] at hsome
    have hbb : r2b = b2 := (Option.some.inj hsome).symm
    rw [hbb] at hmem ⊢
    have hmap : ∀ n ∈ b2, (updateTeamsRatings avail stage mh pm g tr).ratings n =
        writeRatings (updateTeamStep avail stage mh pm t1 g.rosters.1 tr.1).ratings
          g.rosters.2 tr.2 n := by
      intro n hn
      rw [hE]
      exact ho2 n (hmem n hn)
    have hEt2 : (updateTeamsRatings avail stage mh pm g tr).ratings t2 =
        rosterRating (writeRatings (updateTeamStep avail stage mh pm t1 g.rosters.1 tr.1).ratings
          g.rosters.2 tr.2) b2 := by
      rw [hE]
      exact hr2
    constructor
    · rw [hEt2]
      have hmu : (rosterRating (writeRatings
          (updateTeamStep avail stage mh pm t1 g.rosters.1 tr.1).ratings g.rosters.2 tr.2)
          b2).mu =
          ((b2.map (fun n => (writeRatings
            (updateTeamStep avail stage mh pm t1 g.rosters.1 tr.1).ratings
            g.rosters.2 tr.2 n).mu)).sum) / 6 := rfl
      rw [hmu]
      congr 1
      exact congrArg List.sum
        (List.map_congr_left (fun n hn => congrArg Rating.mu (hmap n hn).symm))
    · rw [hEt2]
      have hsg : (rosterRating (writeRatings
          (updateTeamStep avail stage mh pm t1 g.rosters.1 tr.1).ratings g.rosters.2 tr.2)
          b2).sigma =
          Real.sqrt ((b2.map (fun n => (writeRatings
            (updateTeamStep avail stage mh pm t1 g.rosters.1 tr.1).ratings
            g.rosters.2 tr.2 n).sigma ^ 2)).sum) / 6 := rfl
      rw [hsg]
      congr 2
      exact congrArg List.sum
        (List.map_congr_left (fun n hn => by rw [hmap n hn]))
  · intro r1b hsome hmem
    rw [hE, updateTeamStep_bestRosters_ne avail stage mh _ t2 g.rosters.2 tr.2 h12,
      hb1] at hsome
    have hbb : r1b = b1 := (Option.some.inj hsome).symm
    rw [hbb] at hmem ⊢
    have hratt1 : (updateTeamsRatings avail stage mh pm g tr).ratings t1 =
        rosterRating (writeRatings pm.ratings g.rosters.1 tr.1) b1 := by
      rw [hE, ho2 t1 h12, writeRatings_not_mem _ _ _ h1r2, hr1]
    have hmap : ∀ n ∈ b1, (updateTeamsRatings avail stage mh pm g tr).ratings n =
        writeRatings pm.ratings g.rosters.1 tr.1 n := by
      intro n hn
      obtain ⟨hn1, hn2, hn3⟩ := hmem n hn
      rw [hE, ho2 n hn2, writeRatings_not_mem _ _ _ hn3, ho1 n hn1]
    constructor
    · rw [hratt1]
      have hmu : (rosterRating (writeRatings pm.ratings g.rosters.1 tr.1) b1).mu =
          ((b1.map (fun n =>
            (writeRatings pm.ratings g.rosters.1 tr.1 n).mu)).sum) / 6 := rfl
      rw [hmu]
      congr 1
      exact congrArg List.sum
        (List.map_congr_left (fun n hn => congrArg Rating.mu (hmap n hn).symm))
    · rw [hratt1]
      have hsg : (rosterRating (writeRatings pm.ratings g.rosters.1 tr.1) b1).sigma =
          Real.sqrt ((b1.map (fun n =>
            (writeRatings pm.ratings g.rosters.1 tr.1 n).sigma ^ 2)).sum) / 6 := rfl
      rw [hsg]
      congr 2
      exact congrArg List.sum
        (List.map_congr_left (fun n hn => by rw [hmap n hn]))


/-- All-ones uncertainty assignment used to refute the quadratic-mean claim. -/
noncomputable def ratingsC7 : String → Rating := fun _ => ⟨0, 1⟩

def rosterC7 : List String := ["p1", "p2", "p3", "p4", "p5", "p6"]

/-- Counterexample to C7 as stated: for a 6-player roster with every
`sigma = 1`, the stored summary uncertainty is `sqrt(6)/6 ≈ 0.41`, while
the quadratic mean of the uncertainties is `sqrt(6/6) = 1`. -/
theorem c7_counterexample :
    (rosterRating ratingsC7 rosterC7).sigma ≠
      Real.sqrt ((rosterC7.map (fun n => (ratingsC7 n).sigma ^ 2)).sum / 6) := by
  have hsum : ((rosterC7.map (fun n => (ratingsC7 n).sigma ^ 2)).sum : ℝ) = 6 := by
    norm_num [rosterC7, ratingsC7]
  have h1 : (rosterRating ratingsC7 rosterC7).sigma = Real.sqrt 6 / 6 := by
    have : (rosterRating ratingsC7 rosterC7).sigma =
        Real.sqrt ((rosterC7.map (fun n => (ratingsC7 n).sigma ^ 2)).sum) / 6 := rfl
    rw [this, hsum]
  have h2 : Real.sqrt ((rosterC7.map (fun n => (ratingsC7 n).sigma ^ 2)).sum / 6) = 1 := by
    rw [hsum]
    norm_num
  have h3 : Real.sqrt 6 < 3 := by
    have h := Real.sqrt_lt_sqrt (by norm_num : (0:ℝ) ≤ 6) (by norm_num : (6:ℝ) < 9)
    rwa [show (9:ℝ) = 3 ^ 2 by norm_num, Real.sqrt_sq (by norm_num : (0:ℝ) ≤ 3)] at h
  rw [h1, h2]
  intro h
  have : Real.sqrt 6 = 6 := by linarith [h]
  linarith

theorem recordTeamRatings_queues (avail : (Option String × Int) → String → List String)
    (stage : Option String) (mh : List ((Option String × String) × List Int))
    (pm : PlayerModel) (team : String) :
    (recordTeamRatings avail stage mh pm team).2.rosterQueues = pm.rosterQueues := by
  rw [recordTeamRatings]
  exact updateBestRoster_queues pm team _

theorem updateTeamStep_queues (avail : (Option String × Int) → String → List String)
    (stage : Option String) (mh : List ((Option String × String) × List Int))
    (pm : PlayerModel) (team : String) (roster : List String) (rs : List Rating) :
    (updateTeamStep avail stage mh pm team roster rs).rosterQueues = pm.rosterQueues := by
  rw [updateTeamStep]
  exact recordTeamRatings_queues avail stage mh _ team

theorem updateTeamStep_best_eq (avail : (Option String × Int) → String → List String)
    (stage : Option String) (mh : List ((Option String × String) × List Int))
    (pm : PlayerModel) (team : String) (roster : List String) (rs : List Rating) :
    (updateTeamStep avail stage mh pm team roster rs).bestRosters team =
      some (updateBestRoster { pm with ratings := writeRatings pm.ratings roster rs } team
        (avail (stage, ((aget [] mh (stage, team)).length : Int)) team)).1 := by
  rw [updateTeamStep, recordTeamRatings]
  exact updateBestRoster_best _ team _

/-- A queue holding exactly one fully-eligible roster selects it. -/
theorem updateBestRoster_singleton (pm : PlayerModel) (team : String) (members : List String)
    (r : List String) (hq : pm.rosterQueues team = [r])
    (helig : r.all (fun n => members.contains n) = true) :
    (updateBestRoster pm team members).1 = r := by
  have helig2 : (r.all fun n => decide (n ∈ members)) = true := by simpa using helig
  rw [updateBestRoster, hq]
  simp [List.insertionSort, List.orderedInsert, List.find?, helig2]


def nmP1 : String := "p1"

def nmQ1 : String := "q1"

/-- Initial player-model state for the C7 witness. -/
noncomputable def pmW : PlayerModel where
  ratings := fun _ => ⟨0, 0⟩
  bestRosters := fun _ => none
  rosterQueues := fun t => if t = teamA then [[nmP1]] else [[nmQ1]]
  ratingsHistory := []

/-- Availabilities for the C7 witness. -/
def availW : (Option String × Int) → String → List String :=
  fun _ t => if t = teamA then [nmP1] else [nmQ1]

/-- Training game for the C7 witness. -/
def gW : Game where
  teams := (teamA, teamB)
  score := (1, 0)
  stage := stage1
  matchId := 7
  matchFormat := fmtRegular
  drawable := false
  rosters := ([nmP1], [nmQ1])

/-- Posterior ratings returned by the external rating update. -/
noncomputable def trW : List Rating × List Rating := ([⟨12, 0⟩], [⟨18, 0⟩])

/-- Witness for the amended C7 at a concrete training step. -/
theorem c7_team_summary_rating_witness :
    (updateTeamsRatings availW (some stage1) [] pmW gW trW).bestRosters teamB = some [nmQ1] ∧
    ((updateTeamsRatings availW (some stage1) [] pmW gW trW).ratings teamB).mu =
      ([nmQ1].map (fun n =>
        ((updateTeamsRatings availW (some stage1) [] pmW gW trW).ratings n).mu)).sum / 6 ∧
    ((updateTeamsRatings availW (some stage1) [] pmW gW trW).ratings teamB).sigma =
      Real.sqrt (([nmQ1].map (fun n =>
        ((updateTeamsRatings availW (some stage1) [] pmW gW trW).ratings n).sigma ^ 2)).sum)
        / 6 := by
  have hsplit : updateTeamsRatings availW (some stage1) [] pmW gW trW =
      updateTeamStep availW (some stage1) []
        (updateTeamStep availW (some stage1) [] pmW teamA [nmP1] [⟨12, 0⟩])
        teamB [nmQ1] [⟨18, 0⟩] := rfl
  have hb : (updateTeamsRatings availW (some stage1) [] pmW gW trW).bestRosters teamB =
      some [nmQ1] := by
    rw [hsplit, updateTeamStep_best_eq]
    refine congrArg some (updateBestRoster_singleton _ teamB _ [nmQ1] ?_ ?_)
    · show (updateTeamStep availW (some stage1) [] pmW teamA [nmP1]
        [⟨12, 0⟩]).rosterQueues teamB = [[nmQ1]]
      rw [updateTeamStep_queues]
      simp [pmW, teamA, teamB]
    · decide
  have h := (c7_team_summary_rating availW (some stage1) [] pmW gW trW teamA teamB rfl
    (by decide) (by decide)).1 [nmQ1] hb (by decide)
  exact ⟨hb, h.1, h.2⟩


theorem find?_first_max {α : Type} (key : α → ℝ) (p : α → Bool) :
    ∀ (l : List α), List.Sorted (fun a b => key b ≤ key a) l →
      ∀ a, l.find? p = some a → ∀ x ∈ l, p x = true → key x ≤ key a
  | [], _, a, h => by cases h
  | b :: l, hs, a, h => by
    intro x hx hpx
    by_cases hpb : p b = true
    · rw [List.find?_cons_of_pos _ hpb] at h
      obtain rfl : b = a := Option.some.inj h
      rcases List.mem_cons.1 hx with rfl | hx2
      · exact le_refl _
      · exact (List.sorted_cons.1 hs).1 x hx2
    · rw [List.find?_cons_of_neg _ (by simpa using hpb)] at h
      rcases List.mem_cons.1 hx with rfl | hx2
      · exact absurd hpx hpb
      · exact find?_first_max key p l (List.sorted_cons.1 hs).2 a h x hx2 hpx

open Classical in
theorem sorted_by_key {α : Type} (key : α → ℝ) (l : List α) :
    List.Sorted (fun a b => key b ≤ key a)
      (l.insertionSort (fun a b => key b ≤ key a)) := by
  haveI : IsTotal α (fun a b => key b ≤ key a) := ⟨fun a b => le_total (key b) (key a)⟩
  haveI : IsTrans α (fun a b => key b ≤ key a) := ⟨fun a b c hab hbc => le_trans hbc hab⟩
  exact List.sorted_insertionSort _ l

/-- Claim C6 (amended): best-roster selection orders the queued rosters
descending by `_min_roster_rating` — `(Σ mu)/6 - 3·sqrt(Σ sigma²)/6`, not
the average of the members' individual `mu - 3 sigma` — and returns the
first fully-eligible roster in that order; hence the chosen roster is a
queued, fully-eligible roster of maximal score.  When no queued roster is
eligible it falls back to the 6 eligible players with the highest
individual `mu - 3 sigma`. -/
theorem c6_best_roster_selection (pm : PlayerModel) (team : String) (members : List String) :
    ((∃ r ∈ pm.rosterQueues team, ∀ n ∈ r, n ∈ members) →
      (updateBestRoster pm team members).1 ∈ pm.rosterQueues team ∧
      (∀ n ∈ (updateBestRoster pm team members).1, n ∈ members) ∧
      (∀ r ∈ pm.rosterQueues team, (∀ n ∈ r, n ∈ members) →
        minRosterRating pm.ratings r ≤
          minRosterRating pm.ratings (updateBestRoster pm team members).1)) ∧
    ((∀ r ∈ pm.rosterQueues team, ¬ ∀ n ∈ r, n ∈ members) →
      (updateBestRoster pm team members).1.length = min 6 members.length ∧
      (∀ n ∈ (updateBestRoster pm team members).1, n ∈ members) ∧
      (∀ x ∈ (updateBestRoster pm team members).1, ∀ y ∈ members,
        y ∉ (updateBestRoster pm team members).1 →
          minRating pm.ratings y ≤ minRating pm.ratings x)) := by
  constructor
  · rintro ⟨r, hrq, hre⟩
    have hrs : r ∈ (pm.rosterQueues team).insertionSort
        (fun r1 r2 => minRosterRating pm.ratings r2 ≤ minRosterRating pm.ratings r1) := by
      rw [List.mem_insertionSort]
      exact hrq
    have hpr : (r.all (fun n => members.contains n)) = true := by
      simpa using hre
    have hfs : (((pm.rosterQueues team).insertionSort
        (fun r1 r2 => minRosterRating pm.ratings r2 ≤ minRosterRating pm.ratings r1)).find?
        (fun r => r.all (fun n => members.contains n))).isSome := by
      rw [List.find?_isSome]
      exact ⟨r, hrs, hpr⟩
    obtain ⟨found, hfound⟩ := Option.isSome_iff_exists.1 hfs
    have hres : (updateBestRoster pm team members).1 = found := by
      rw [updateBestRoster]
      simp only [hfound]
    have hmemf : found ∈ (pm.rosterQueues team) := by
      have := List.mem_of_find?_eq_some hfound
      rwa [List.mem_insertionSort] at this
    have hpf := List.find?_some hfound
    refine ⟨hres ▸ hmemf, ?_, ?_⟩
    · rw [hres]
      simpa using hpf
    · intro r2 hr2q hr2e
      rw [hres]
      have hr2s : r2 ∈ (pm.rosterQueues team).insertionSort
          (fun r1 r2 => minRosterRating pm.ratings r2 ≤ minRosterRating pm.ratings r1) := by
        rw [List.mem_insertionSort]
        exact hr2q
      exact find?_first_max (minRosterRating pm.ratings) _ _
        (sorted_by_key (minRosterRating pm.ratings) (pm.rosterQueues team)) found hfound
        r2 hr2s (by simpa using hr2e)
  · intro hnone
    have hfs : (((pm.rosterQueues team).insertionSort
        (fun r1 r2 => minRosterRating pm.ratings r2 ≤ minRosterRating pm.ratings r1)).find?
        (fun r => r.all (fun n => members.contains n))) = none := by
      rw [List.find?_eq_none]
      intro r hrs
      have hrq : r ∈ pm.rosterQueues team := by
        rwa [List.mem_insertionSort] at hrs
      have := hnone r hrq
      simpa using this
    have hres : (updateBestRoster pm team members).1 =
        (members.insertionSort
          (fun n1 n2 => minRating pm.ratings n2 ≤ minRating pm.ratings n1)).take 6 := by
      rw [updateBestRoster]
      simp only [hfs]
    have hsorted := sorted_by_key (minRating pm.ratings) members
    refine ⟨?_, ?_, ?_⟩
    · rw [hres, List.length_take, List.length_insertionSort]
    · intro n hn
      rw [hres] at hn
      have := List.mem_of_mem_take hn
      rwa [List.mem_insertionSort] at this
    · intro x hx y hy hyn
      rw [hres] at hx hyn
      have hys : y ∈ members.insertionSort
          (fun n1 n2 => minRating pm.ratings n2 ≤ minRating pm.ratings n1) := by
        rw [List.mem_insertionSort]
        exact hy
      have hsplit := List.take_append_drop 6 (members.insertionSort
        (fun n1 n2 => minRating pm.ratings n2 ≤ minRating pm.ratings n1))
      have hyd : y ∈ (members.insertionSort
          (fun n1 n2 => minRating pm.ratings n2 ≤ minRating pm.ratings n1)).drop 6 := by
        rw [← hsplit] at hys
        rcases List.mem_append.1 hys with h | h
        · exact absurd h hyn
        · exact h
      have hpw : List.Pairwise (fun a b => minRating pm.ratings b ≤ minRating pm.ratings a)
          ((members.insertionSort
            (fun n1 n2 => minRating pm.ratings n2 ≤ minRating pm.ratings n1)).take 6 ++
           (members.insertionSort
            (fun n1 n2 => minRating pm.ratings n2 ≤ minRating pm.ratings n1)).drop 6) := by
        rw [hsplit]
        exact hsorted
      exact (List.pairwise_append.1 hpw).2.2 x hx y hyd


/-- Witness for the amended C6: a queue with one fully-eligible roster. -/
theorem c6_best_roster_selection_witness :
    (∃ r ∈ pmW.rosterQueues teamA, ∀ n ∈ r, n ∈ [nmP1]) ∧
    ((updateBestRoster pmW teamA [nmP1]).1 ∈ pmW.rosterQueues teamA ∧
     (∀ n ∈ (updateBestRoster pmW teamA [nmP1]).1, n ∈ [nmP1]) ∧
     (∀ r ∈ pmW.rosterQueues teamA, (∀ n ∈ r, n ∈ [nmP1]) →
       minRosterRating pmW.ratings r ≤
         minRosterRating pmW.ratings (updateBestRoster pmW teamA [nmP1]).1)) := by
  have hex : ∃ r ∈ pmW.rosterQueues teamA, ∀ n ∈ r, n ∈ [nmP1] := by
    refine ⟨[nmP1], ?_, fun n hn => hn⟩
    simp [pmW]
  exact ⟨hex, (c6_best_roster_selection pmW teamA [nmP1]).1 hex⟩

/-- The roster score as the spec words it (second definition, for the
refutation of C6): the average of the 6 members' individual
lower-confidence bounds `mu - 3 sigma`. -/
noncomputable def specMinRosterRating (ratings : String → Rating) (roster : List String) : ℝ :=
  (roster.map (fun n => (ratings n).mu - 3 * (ratings n).sigma)).sum / 6

open Classical in
/-- Best-roster selection as the spec words it: order by
`specMinRosterRating` descending, return the first fully-eligible roster. -/
noncomputable def specSelectBestRoster (pm : PlayerModel) (team : String)
    (members : List String) : Option (List String) :=
  ((pm.rosterQueues team).insertionSort
    (fun r1 r2 => specMinRosterRating pm.ratings r2 ≤ specMinRosterRating pm.ratings r1)).find?
    (fun r => r.all (fun n => members.contains n))

def rosterA6 : List String := ["a1", "a2", "a3", "a4", "a5", "a6"]

def rosterB6 : List String := ["b1", "b2", "b3", "b4", "b5", "b6"]

def membersC6 : List String := rosterA6 ++ rosterB6

/-- Ratings for the C6 counterexample: roster A concentrates its
uncertainty in one player, roster B spreads it evenly. -/
noncomputable def ratingsC6 : String → Rating :=
  fun n => if n = "a1" then ⟨10, 6⟩ else if n ∈ rosterA6 then ⟨10, 0⟩ else ⟨9, 1⟩

noncomputable def pmC6 : PlayerModel where
  ratings := ratingsC6
  bestRosters := fun _ => none
  rosterQueues := fun _ => [rosterA6, rosterB6]
  ratingsHistory := []

theorem sqrt_six_lt_three : Real.sqrt 6 < 3 := by
  have h := Real.sqrt_lt_sqrt (by norm_num : (0:ℝ) ≤ 6) (by norm_num : (6:ℝ) < 9)
  rwa [show (9:ℝ) = 3 ^ 2 by norm_num, Real.sqrt_sq (by norm_num : (0:ℝ) ≤ 3)] at h

theorem keyA_eq : minRosterRating ratingsC6 rosterA6 = 7 := by
  have hmu : ((rosterA6.map (fun n => (ratingsC6 n).mu)).sum : ℝ) = 60 := by
    simp [rosterA6, ratingsC6]
    norm_num
  have hsg : ((rosterA6.map (fun n => (ratingsC6 n).sigma ^ 2)).sum : ℝ) = 36 := by
    simp [rosterA6, ratingsC6]
    norm_num
  have h : minRosterRating ratingsC6 rosterA6 =
      ((rosterA6.map (fun n => (ratingsC6 n).mu)).sum) / 6 -
      3 * (Real.sqrt ((rosterA6.map (fun n => (ratingsC6 n).sigma ^ 2)).sum) / 6) := rfl
  rw [h, hmu, hsg, show (36:ℝ) = 6 ^ 2 by norm_num,
    Real.sqrt_sq (by norm_num : (0:ℝ) ≤ 6)]
  norm_num

theorem keyB_eq : minRosterRating ratingsC6 rosterB6 = 9 - Real.sqrt 6 / 2 := by
  have hmu : ((rosterB6.map (fun n => (ratingsC6 n).mu)).sum : ℝ) = 54 := by
    simp [rosterB6, rosterA6, ratingsC6]
    norm_num
  have hsg : ((rosterB6.map (fun n => (ratingsC6 n).sigma ^ 2)).sum : ℝ) = 6 := by
    simp [rosterB6, rosterA6, ratingsC6]
    norm_num
  have h : minRosterRating ratingsC6 rosterB6 =
      ((rosterB6.map (fun n => (ratingsC6 n).mu)).sum) / 6 -
      3 * (Real.sqrt ((rosterB6.map (fun n => (ratingsC6 n).sigma ^ 2)).sum) / 6) := rfl
  rw [h, hmu, hsg]
  ring

/-- Counterexample to C6 as stated: with roster A concentrating its
uncertainty (code score `7`, spec average-LCB score `7`) and roster B
spreading it (code score `9 - sqrt 6 / 2 > 7`, spec score `6`), the code
selects roster B while the spec's ordering selects roster A. -/
theorem c6_counterexample :
    (updateBestRoster pmC6 teamA membersC6).1 = rosterB6 ∧
    specSelectBestRoster pmC6 teamA membersC6 = some rosterA6 ∧
    rosterB6 ≠ rosterA6 := by
  have hkey : minRosterRating pmC6.ratings rosterA6 < minRosterRating pmC6.ratings rosterB6 := by
    have e1 : pmC6.ratings = ratingsC6 := rfl
    rw [e1, keyA_eq, keyB_eq]
    have := sqrt_six_lt_three
    linarith
  have hq : pmC6.rosterQueues teamA = [rosterA6, rosterB6] := rfl
  refine ⟨?_, ?_, by decide⟩
  · have hsort : ([rosterA6, rosterB6].insertionSort
        (fun r1 r2 => minRosterRating pmC6.ratings r2 ≤ minRosterRating pmC6.ratings r1)) =
        [rosterB6, rosterA6] := by
      simp only [List.insertionSort, List.orderedInsert]
      rw [if_neg (not_le.2 hkey)]
    rw [updateBestRoster, hq, hsort]
    rw [List.find?_cons_of_pos _ (by decide)]
  · have hkey2 : specMinRosterRating pmC6.ratings rosterB6 ≤
        specMinRosterRating pmC6.ratings rosterA6 := by
      have ha : specMinRosterRating pmC6.ratings rosterA6 = 7 := by
        have : specMinRosterRating pmC6.ratings rosterA6 =
            ((rosterA6.map (fun n =>
              (ratingsC6 n).mu - 3 * (ratingsC6 n).sigma)).sum) / 6 := rfl
        rw [this]
        simp [rosterA6, ratingsC6]
        norm_num
      have hb : specMinRosterRating pmC6.ratings rosterB6 = 6 := by
        have : specMinRosterRating pmC6.ratings rosterB6 =
            ((rosterB6.map (fun n =>
              (ratingsC6 n).mu - 3 * (ratingsC6 n).sigma)).sum) / 6 := rfl
        rw [this]
        simp [rosterB6, rosterA6, ratingsC6]
        norm_num
      rw [ha, hb]
      norm_num
    have hsort : ([rosterA6, rosterB6].insertionSort
        (fun r1 r2 => specMinRosterRating pmC6.ratings r2 ≤ specMinRosterRating pmC6.ratings r1)) =
        [rosterA6, rosterB6] := by
      simp only [List.insertionSort, List.orderedInsert]
      rw [if_pos hkey2]
    rw [specSelectBestRoster, hq, hsort]
    rw [List.find?_cons_of_pos _ (by decide)]

end OwlSr
